import Mathlib

/-!
Shallow embedding of the LeafKnow filesystem observation engine
(`src/tauri-app/src-tauri/src/file_monitor.rs`, `event_buffer.rs`, `lib.rs`)
and proofs about the behaviour of its pure core.

Rust `HashMap`s / `serde_json::Map`s are modelled as association lists with
replace-or-append insertion; paths are modelled as strings, with the Rust
`Path` component/file-name operations given explicit string models.
-/

namespace LeafKnow

/-- Association-list lookup, the model of `HashMap::get` / `Map::get`:
first binding of the key wins. -/
def alookup {α : Type} : List (String × α) → String → Option α
  | [], _ => none
  | (k, v) :: rest, key => if k = key then some v else alookup rest key

/-- Association-list insert, the model of `HashMap::insert` / `Map::insert`
(and of `entry(..).or_default` followed by an overwrite): replaces the first
binding of the key, or appends a new binding. -/
def aset {α : Type} : List (String × α) → String → α → List (String × α)
  | [], key, v => [(key, v)]
  | (k, w) :: rest, key, v =>
      if k = key then (key, v) :: rest else (k, w) :: aset rest key v

-- --- BlacklistTrieNode (`file_monitor.rs`, lines 24-113) ---

/-- One node of the hierarchical blacklist trie (`BlacklistTrieNode`).
`children` models the Rust `HashMap<String, BlacklistTrieNode>`. -/
inductive BlacklistTrieNode where
  | node (children : List (String × BlacklistTrieNode)) (is_blacklisted_here : Bool)

def BlacklistTrieNode.children : BlacklistTrieNode → List (String × BlacklistTrieNode)
  | .node ch _ => ch

def BlacklistTrieNode.marked : BlacklistTrieNode → Bool
  | .node _ m => m

/-- The freshly-defaulted node (`BlacklistTrieNode::default()`). -/
def BlacklistTrieNode.empty : BlacklistTrieNode := .node [] false

/-- `BlacklistTrieNode::insert`.  A path is its list of `Normal` (UTF-8)
components; the root path `/` is the empty component list (the Rust code
special-cases it, marking the root node, which coincides with running the
component loop zero times).  `CurDir`/`ParentDir`/`Prefix` components are
ignored by the Rust loop and therefore never appear in the component list. -/
def BlacklistTrieNode.insert : BlacklistTrieNode → List String → BlacklistTrieNode
  | .node ch _, [] => .node ch true
  | .node ch m, c :: rest =>
      let child := (alookup ch c).getD BlacklistTrieNode.empty
      .node (aset ch c (child.insert rest)) m

/-- The component loop of `BlacklistTrieNode::is_path_or_ancestor_blacklisted`:
step into each child in turn, returning true as soon as a visited child is
marked, false when a component is missing or the components are exhausted. -/
def BlacklistTrieNode.walk : BlacklistTrieNode → List String → Bool
  | _, [] => false
  | t, c :: rest =>
      match alookup t.children c with
      | none => false
      | some child => child.marked || child.walk rest

/-- `BlacklistTrieNode::is_path_or_ancestor_blacklisted`: the initial check of
the root's own mark (the `/` case) followed by the component walk. -/
def BlacklistTrieNode.is_path_or_ancestor_blacklisted
    (t : BlacklistTrieNode) (p : List String) : Bool :=
  t.marked || t.walk p

/-- Building the trie from a list of blacklist paths, as
`fetch_and_store_all_config` does: start from the default node and insert each
blacklisted directory in turn. -/
def buildTrie (B : List (List String)) : BlacklistTrieNode :=
  B.foldl BlacklistTrieNode.insert BlacklistTrieNode.empty

-- --- Configuration and metadata data model (`file_monitor.rs`, lines 137-271) ---

/-- A JSON scalar as stored in the `extra_metadata` / `extra_data` maps
(`serde_json::Value`; only numbers, strings and booleans are ever inserted by
the modelled code). -/
inductive JVal where
  | num (n : Int)
  | str (s : String)
  | bool (b : Bool)
deriving DecidableEq

/-- `FileCategoryRust` (description/icon omitted: unused by the logic). -/
structure FileCategoryRust where
  id : Int
  name : String
deriving DecidableEq

/-- `RuleTypeRust`. -/
inductive RuleTypeRust where
  | Extension
  | Filename
  | Folder
  | Structure
  | OSBundle
deriving DecidableEq

/-- `RuleActionRust`. -/
inductive RuleActionRust where
  | Include
  | Exclude
  | Label
deriving DecidableEq

/-- `FileFilterRuleRust`.  `label_value` models
`extra_data.get("label_value")` when it is a JSON string — the only read of
`extra_data` performed by `apply_initial_rules`.  `priority` and the other
descriptive fields are unused by the modelled logic and omitted. -/
structure FileFilterRuleRust where
  id : Int
  name : String
  rule_type : RuleTypeRust
  category_id : Option Int
  action : RuleActionRust
  enabled : Bool
  pattern : String
  pattern_type : String
  label_value : Option String
deriving DecidableEq

/-- `FileExtensionMapRust` (only the fields read by the logic). -/
structure FileExtensionMapRust where
  extension : String
  category_id : Int
deriving DecidableEq

/-- `MonitoredDirectory` (timestamps omitted). -/
structure MonitoredDirectory where
  id : Option Int
  path : String
  «alias» : Option String
  is_blacklist : Bool
deriving DecidableEq

/-- `AllConfigurations`. -/
structure AllConfigurations where
  file_categories : List FileCategoryRust
  file_filter_rules : List FileFilterRuleRust
  file_extension_maps : List FileExtensionMapRust
  monitored_folders : List MonitoredDirectory
  full_disk_access : Bool
  bundle_extensions : List String
deriving DecidableEq

/-- `FileMetadata`.  The JSON `extra_metadata` object is modelled as an
association list of scalars. -/
structure FileMetadata where
  file_path : String
  file_name : String
  extension : Option String
  file_size : Nat
  created_time : Nat
  modified_time : Nat
  is_dir : Bool
  is_hidden : Bool
  hash_value : Option String
  category_id : Option Int
  labels : Option (List String)
  initial_rule_matches : Option (List String)
  extra_metadata : Option (List (String × JVal))
  is_os_bundle : Option Bool
deriving DecidableEq

/-- Rust `str::to_lowercase`, modelled character-wise. -/
def strToLower (s : String) : String :=
  ⟨s.data.map Char.toLower⟩

/-- Rust `str::starts_with`. -/
def strStartsWith (s pre : String) : Bool :=
  pre.data.isPrefixOf s.data

/-- Rust `str::ends_with`. -/
def strEndsWith (s suf : String) : Bool :=
  suf.data.reverse.isPrefixOf s.data.reverse

def containsAux (pat : List Char) : List Char → Bool
  | [] => pat.isEmpty
  | c :: cs => pat.isPrefixOf (c :: cs) || containsAux pat cs

/-- Rust `haystack.contains(needle)` on strings (substring containment). -/
def strContains (hay pat : String) : Bool :=
  containsAux pat.data hay.data

def replaceListAux (pat rep : List Char) : Nat → List Char → List Char
  | _, [] => []
  | 0, l => l
  | fuel + 1, c :: cs =>
      if pat.isPrefixOf (c :: cs) then
        rep ++ replaceListAux pat rep fuel (List.drop (pat.length - 1) cs)
      else c :: replaceListAux pat rep fuel cs

/-- Rust `str::replace` (all non-overlapping occurrences, left to right;
the pattern is assumed non-empty, which holds for the one call site `"~"`). -/
def strReplace (s pat rep : String) : String :=
  if pat.data.isEmpty then s
  else ⟨replaceListAux pat.data rep.data s.data.length s.data⟩

/-- The outcome of compiling `pattern` with `regex::Regex::new` and testing
`text` with `is_match`: `rmatch pattern text = true` iff the pattern compiles
and matches.  A malformed pattern (treated by the code as "rule does not
match") is a pattern on which the oracle returns `false` for every text. -/
def Rmatch : Type := String → String → Bool

-- --- The rule engine: `FileMonitor::apply_initial_rules` (lines 959-1222) ---

/-- The mutable state threaded through the filter-rule loop of
`apply_initial_rules`: the metadata fields it updates plus the local
`rule_matches`, `is_bundle_file` and `extra_data` variables. -/
structure RuleState where
  category_id : Option Int
  labels : Option (List String)
  rule_matches : List String
  is_bundle : Bool
  extra : List (String × JVal)
deriving DecidableEq

/-- `labels.push(x)` guarded by `!labels.contains(&x)`. -/
def pushLabelIfAbsent (l : List String) (x : String) : List String :=
  if l.contains x then l else l ++ [x]

/-- Whether `filter_rule` matches the (already lowercased) file name and the
optional extension — the `matched_this_rule` computation of the rule loop.
`Folder` and `Structure` rules never match (the `_ => {}` arm). -/
def matchesRule (rm : Rmatch) (filename : String) (extension : Option String)
    (rule : FileFilterRuleRust) : Bool :=
  match rule.rule_type with
  | .Filename =>
      if rule.pattern_type = "keyword" then strContains filename (strToLower rule.pattern)
      else if rule.pattern_type = "regex" then rm rule.pattern filename
      else false
  | .OSBundle =>
      rule.pattern_type = "regex" && rm rule.pattern filename
  | .Extension =>
      match extension with
      | some ext_val =>
          if rule.pattern_type = "keyword" && strToLower ext_val = strToLower rule.pattern then
            true
          else if rule.pattern_type = "regex" then rm rule.pattern ext_val
          else false
      | none => false
  | .Folder => false
  | .Structure => false

/-- One iteration of the filter-rule loop of `apply_initial_rules`:
the `OSBundle` side effects fire while the match is evaluated, then a match
appends to `rule_matches`, applies the `Label`/`Exclude`/`Include` action for
non-`OSBundle` rules (`Exclude` is suppressed while `is_bundle_file` is set),
and finally installs the rule's `category_id` if it has one. -/
def applyRule (rm : Rmatch) (filename : String) (extension : Option String)
    (st : RuleState) (rule : FileFilterRuleRust) : RuleState :=
  if !rule.enabled then st
  else
    let matched := matchesRule rm filename extension rule
    let st1 :=
      if matched && rule.rule_type = .OSBundle then
        { st with
          is_bundle := true
          extra := aset (aset (aset st.extra
              "macos_bundle_rule_id" (.num rule.id))
              "macos_bundle_rule_name" (.str rule.name))
              "is_macos_bundle" (.bool true)
          labels := some (pushLabelIfAbsent
              (pushLabelIfAbsent (st.labels.getD []) rule.name) "macos_bundle") }
      else st
    if matched then
      let st2 := { st1 with rule_matches := st1.rule_matches ++ [rule.name] }
      let st3 :=
        if rule.rule_type ≠ .OSBundle then
          match rule.action with
          | .Label =>
              let ls0 := st2.labels.getD []
              let ls1 := pushLabelIfAbsent ls0 rule.name
              let ls2 :=
                match rule.label_value with
                | some lv => pushLabelIfAbsent ls1 lv
                | none => ls1
              { st2 with labels := some ls2 }
          | .Exclude =>
              if !st2.is_bundle then
                { st2 with
                  extra := aset (aset st2.extra
                      "excluded_by_rule_id" (.num rule.id))
                      "excluded_by_rule_name" (.str rule.name) }
              else st2
          | .Include => st2
        else st2
      match rule.category_id with
      | some cid => { st3 with category_id := some cid }
      | none => st3
    else st1

/-- The `extra_data` object right after the hidden-file check (lines 974-987):
hidden files are unconditionally marked excluded by pseudo-rule 9999. -/
def hiddenExtra (m : FileMetadata) : List (String × JVal) :=
  if m.is_hidden then
    aset (aset [] "excluded_by_rule_id" (.num 9999))
      "excluded_by_rule_name" (.str "隐藏文件自动排除")
  else []

/-- The extension-map phase (lines 989-1023): the first matching extension-map
entry (table order) sets `category_id` and records the category name; then,
for any record with an extension, an `ext:<extension>` label is pushed
unconditionally and the extension is recorded in `extra_data`.
Returns (category_id, labels, extra_data) after the phase. -/
def extMapPhase (cfg : AllConfigurations) (m : FileMetadata)
    (extra0 : List (String × JVal)) :
    Option Int × Option (List String) × List (String × JVal) :=
  match m.extension with
  | some ext =>
      let (cat, extra1) :=
        match cfg.file_extension_maps.find? (fun em => em.extension = ext) with
        | some em =>
            let category_name :=
              ((cfg.file_categories.find? (fun cat => cat.id = em.category_id)).map
                (fun cat => cat.name)).getD "unknown_category_id"
            (some em.category_id,
              aset extra0 "file_type_from_ext_map" (.str category_name))
        | none => (m.category_id, extra0)
      let labels := some ((m.labels.getD []) ++ ["ext:" ++ ext])
      (cat, labels, aset extra1 "extension" (.str ext))
  | none => (m.category_id, m.labels, extra0)

/-- `FileMonitor::apply_initial_rules`, as a pure function of the configuration
snapshot, the regex oracle and the input record.  (When the configuration
cache is empty the Rust function returns without touching the record; that
case is modelled by the caller simply not invoking this function.)  The final
writes mirror lines 1210-1221: `is_os_bundle` is always set, while
`initial_rule_matches` and `extra_metadata` are only overwritten when the
locally accumulated values are non-empty. -/
def apply_initial_rules (cfg : AllConfigurations) (rm : Rmatch)
    (m : FileMetadata) : FileMetadata :=
  let extra0 := hiddenExtra m
  let phase := extMapPhase cfg m extra0
  let filename := strToLower m.file_name
  let st0 : RuleState :=
    { category_id := phase.1
      labels := phase.2.1
      rule_matches := m.initial_rule_matches.getD []
      is_bundle := m.is_os_bundle.getD false
      extra := phase.2.2 }
  let st := cfg.file_filter_rules.foldl (applyRule rm filename m.extension) st0
  { m with
    category_id := st.category_id
    labels := st.labels
    initial_rule_matches :=
      if st.rule_matches.isEmpty then m.initial_rule_matches else some st.rule_matches
    extra_metadata :=
      if st.extra.isEmpty then m.extra_metadata else some st.extra
    is_os_bundle := some st.is_bundle }

-- --- Concrete data used by counterexamples and witnesses ---

/-- A blank `FileMetadata` record, as `get_file_metadata` would produce before
any enrichment. -/
def emptyMeta : FileMetadata :=
  { file_path := "", file_name := "", extension := none, file_size := 0,
    created_time := 0, modified_time := 0, is_dir := false, is_hidden := false,
    hash_value := none, category_id := none, labels := none,
    initial_rule_matches := none, extra_metadata := none, is_os_bundle := none }

/-- A regex oracle with literal-substring semantics: the behaviour of
`regex::Regex` on patterns without metacharacters (such as `"app"`). -/
def rmSub : Rmatch := fun pat txt => strContains txt pat

/-- A configuration whose rule table lists an `Exclude` filename rule *before*
an `OSBundle` rule, both matching the same names. -/
def cfgC2 : AllConfigurations :=
  { file_categories := []
    file_filter_rules :=
      [ { id := 1, name := "exclude-apps", rule_type := .Filename,
          category_id := none, action := .Exclude, enabled := true,
          pattern := "app", pattern_type := "keyword", label_value := none },
        { id := 2, name := "bundle-rule", rule_type := .OSBundle,
          category_id := none, action := .Include, enabled := true,
          pattern := "app", pattern_type := "regex", label_value := none } ]
    file_extension_maps := []
    monitored_folders := []
    full_disk_access := false
    bundle_extensions := [] }

def mC2 : FileMetadata :=
  { emptyMeta with
    file_path := "/x/myapp.app"
    file_name := "myapp.app"
    extension := some "app" }

/-- `mC2` with the bundle flag already set on entry to the rule pass. -/
def mC2bundle : FileMetadata :=
  { mC2 with is_os_bundle := some true }

/-- A configuration with a single extension-map entry and no filter rules. -/
def cfgC3 : AllConfigurations :=
  { file_categories := [], file_filter_rules := []
    file_extension_maps := [ { extension := "txt", category_id := 1 } ]
    monitored_folders := [], full_disk_access := false, bundle_extensions := [] }

/-- A plain text file record. -/
def mC3 : FileMetadata :=
  { emptyMeta with
    file_path := "/x/a.txt"
    file_name := "a.txt"
    extension := some "txt" }

-- --- C7: extension-based classification ---

/-- Spec-side description of the matched rules' category ids, in rule-table
order: the `category_id`s carried by enabled rules that match the record. -/
def matchedCategoryIds (cfg : AllConfigurations) (rm : Rmatch) (m : FileMetadata) :
    List Int :=
  (cfg.file_filter_rules.filter
      (fun r => r.enabled && matchesRule rm (strToLower m.file_name) m.extension r)).filterMap
    (fun r => r.category_id)

/-- The last element of `l` if any, else the default. -/
def lastOr (l : List Int) (d : Option Int) : Option Int :=
  match l.getLast? with
  | some c => some c
  | none => d

/-- Spec-side description of the extension-map category: the category of the
*first* entry (in stored table order) whose extension equals the record's,
falling back to the record's incoming category. -/
def extMapCategory (cfg : AllConfigurations) (m : FileMetadata) (e : String) :
    Option Int :=
  match cfg.file_extension_maps.find? (fun em => em.extension = e) with
  | some em => some em.category_id
  | none => m.category_id

-- --- C4: the batch accumulator's per-record filter (`batch_processor`,
-- `file_monitor.rs` lines 1718-1795) ---

/-- The whitelist of valid extensions derived from the configuration cache
(lowercased extension-map extensions; empty when the cache is empty),
as computed inside `batch_processor` and `process_file_event`. -/
def validExtensions (config : Option AllConfigurations) : List String :=
  match config with
  | some cfg => cfg.file_extension_maps.map (fun em => strToLower em.extension)
  | none => []

/-- Whether the record carries the upstream exclusion marker
(`extra_metadata.get("excluded_by_rule_id").is_some()`). -/
def hasExclusionMarker (m : FileMetadata) : Bool :=
  (alookup (m.extra_metadata.getD []) "excluded_by_rule_id").isSome

/-- The filtering chain of `batch_processor`, one received record at a time:
`true` iff the record is pushed onto the batch (each `continue` of the Rust
loop is a `false`).  In source order: hidden files are skipped; bundles are
*not* skipped (logged only); rule-excluded records are skipped; then, for
non-directory non-bundle records, a non-empty extension whitelist excludes
missing or non-whitelisted extensions; `.DS_Store`-named records are skipped;
finally directories are skipped. -/
def batchAccepts (config : Option AllConfigurations) (m : FileMetadata) : Bool :=
  if m.is_hidden then false
  else if hasExclusionMarker m then false
  else if (!m.is_dir && !(m.is_os_bundle.getD false))
      && (let wl := validExtensions config
          !wl.isEmpty &&
            (match m.extension with
             | some ext => !wl.contains (strToLower ext)
             | none => true)) then false
  else if strContains m.file_name ".DS_Store" then false
  else if m.is_dir then false
  else true

/-- Claim-side characterisation of the accumulator filter: forwarded iff the
record is a non-hidden, non-excluded, non-`.DS_Store`, non-directory record
which moreover is bundle-flagged, or faces an empty whitelist, or carries a
whitelisted extension. -/
def batchAcceptsSpec (config : Option AllConfigurations) (m : FileMetadata) : Bool :=
  !m.is_dir && !m.is_hidden && !hasExclusionMarker m
    && !(strContains m.file_name ".DS_Store")
    && (m.is_os_bundle.getD false
        || (validExtensions config).isEmpty
        || (match m.extension with
            | some ext => (validExtensions config).contains (strToLower ext)
            | none => false))

-- --- Path-string models of the Rust `Path` operations used by the code ---

def splitOnCharAux (sep : Char) : List Char → List (List Char)
  | [] => [[]]
  | c :: cs =>
      let r := splitOnCharAux sep cs
      if c = sep then [] :: r
      else
        match r with
        | [] => [[c]]
        | h :: t => (c :: h) :: t

/-- Rust `str::split(sep)` / the `path_str.split('/')` idiom. -/
def strSplitOnChar (sep : Char) (s : String) : List String :=
  (splitOnCharAux sep s.data).map (fun l => ⟨l⟩)

/-- Model of `Path::file_name` for Unix path strings: the last component after
dropping empty and `.` components; `none` when no component remains or the
last one is `..`. -/
def pathFileName (p : String) : Option String :=
  match ((strSplitOnChar '/' p).filter (fun c => c ≠ "" && c ≠ ".")).getLast? with
  | none => none
  | some c => if c = ".." then none else some c

/-- `FileMonitor::is_hidden_file`: the file name starts with `.`, or some
path component (other than `.`/`..`) starts with `.`. -/
def is_hidden_file (p : String) : Bool :=
  ((pathFileName p).map (fun name => strStartsWith name ".")).getD false
    || (strSplitOnChar '/' p).any
        (fun part => part ≠ "" && strStartsWith part "."
          && part ≠ "." && part ≠ "..")

/-- `FileMonitor::extract_extension`, i.e. `Path::extension()` lowercased: the
part of the file name after its last dot; `none` when the name has no dot or
only a single leading dot. -/
def extract_extension (p : String) : Option String :=
  match pathFileName p with
  | none => none
  | some name =>
      match strSplitOnChar '.' name with
      | [] => none
      | [_] => none
      | first :: rest =>
          if first = "" && rest.length = 1 then none
          else (rest.getLast?).map strToLower

/-- The `Normal` components of a Unix path string, in the form consumed by the
blacklist trie (root, `.` and `..` segments are skipped by the Rust loops). -/
def pathComponents (p : String) : List String :=
  (strSplitOnChar '/' p).filter (fun c => c ≠ "" && c ≠ "." && c ≠ "..")

def findSubstrAux (pat : List Char) : List Char → Nat → Option Nat
  | [], i => if pat.isEmpty then some i else none
  | c :: cs, i =>
      if pat.isPrefixOf (c :: cs) then some i
      else findSubstrAux pat cs (i + 1)

/-- Model of `str::find(pattern)`: index of the first occurrence. -/
def strFind (hay pat : String) : Option Nat :=
  findSubstrAux pat.data hay.data 0

def strTake (s : String) (n : Nat) : String := ⟨s.data.take n⟩

def insideBundleMarkers : List String :=
  [".app/", ".bundle/", ".framework/", ".fcpbundle/", ".photoslibrary/",
   ".imovielibrary/", ".tvlibrary/", ".theater/"]

/-- `FileMonitor::is_inside_macos_bundle`: when the path contains a bundle
marker such as `.app/`, return the path cut just before the marker's trailing
slash — the bundle root.  (The `find`-fails-after-`contains` fallback arm of
the source is unreachable but modelled as written.) -/
def is_inside_macos_bundle (p : String) : Option String :=
  match insideBundleMarkers.find? (fun ext => strContains p ext) with
  | some ext =>
      match strFind p ext with
      | some i => some (strTake p (i + ext.length - 1))
      | none => some p
  | none => none

-- --- The abstract filesystem and monitor state ---

/-- The fields of `std::fs::Metadata` read by `get_file_metadata`. -/
structure StatInfo where
  is_dir : Bool
  len : Nat
  created : Nat
  modified : Nat
deriving DecidableEq

/-- The ambient filesystem / OS / network facts a `process_file_event` call
consults, as an abstract environment: existence and kind of paths, the
`Contents`-structure probes of the bundle detectors, the dot-entry count
heuristic, `$HOME`, the content-hash result, the outcome of an on-demand
configuration fetch, and the regex oracle. -/
structure FsEnv where
  pathExists : String → Bool
  pathIsFile : String → Bool
  pathIsDir : String → Bool
  stat : String → Option StatInfo
  dotEntryCount : String → Nat
  contentsDirExists : String → Bool
  contentsInfoPlistExists : String → Bool
  contentsMacOSExists : String → Bool
  contentsResourcesExists : String → Bool
  isMacOS : Bool
  home : Option String
  fileHash : String → Option String
  fetchedConfig : Option AllConfigurations
  rmatch : Rmatch

def defaultBundleExtensions : List String :=
  [".app", ".bundle", ".framework", ".fcpbundle", ".photoslibrary",
   ".imovielibrary", ".tvlibrary", ".theater"]

def fallbackBundleExtensions : List String :=
  [".app", ".bundle", ".framework", ".fcpbundle", ".photoslibrary",
   ".imovielibrary", ".tvlibrary", ".theater", ".plugin", ".component",
   ".colorSync", ".mdimporter", ".qlgenerator", ".saver", ".service",
   ".wdgt", ".xpc"]

/-- `FileMonitor::extract_bundle_extensions`: the configured list if
non-empty, else the `.`-patterns of enabled `OSBundle` rules, else the
hard-coded fallback list. -/
def extract_bundle_extensions (config : Option AllConfigurations) : List String :=
  match config with
  | some cfg =>
      if !cfg.bundle_extensions.isEmpty then cfg.bundle_extensions
      else
        let fromRules := (cfg.file_filter_rules.filter
            (fun r => r.rule_type = RuleTypeRust.OSBundle && r.enabled)).filterMap
          (fun r => if strStartsWith r.pattern "." then some r.pattern else none)
        if !fromRules.isEmpty then fromRules
        else fallbackBundleExtensions
  | none => fallbackBundleExtensions

/-- `FileMonitor::is_macos_bundle_folder_with_extensions`: lowercased file
name or any lowercased path component ends with a bundle extension, or (on
macOS, for directories) a `Contents` directory with `Info.plist` / `MacOS` /
`Resources` exists. -/
def is_macos_bundle_folder_with_extensions (env : FsEnv) (p : String)
    (exts : List String) : Bool :=
  (match pathFileName p with
   | some name => exts.any (fun e => strEndsWith (strToLower name) e)
   | none => false)
  || (strSplitOnChar '/' p).any
      (fun comp => exts.any (fun e => strEndsWith (strToLower comp) e))
  || (env.pathIsDir p && env.isMacOS && env.contentsDirExists p
      && (env.contentsInfoPlistExists p || env.contentsMacOSExists p
          || env.contentsResourcesExists p))

/-- `FileMonitor::is_macos_bundle_folder` (static variant with the default
extension list; its first check duplicates tier 1 of the shared helper). -/
def is_macos_bundle_folder (env : FsEnv) (p : String) : Bool :=
  if p = "" then false
  else
    (match pathFileName p with
     | some name => defaultBundleExtensions.any (fun e => strEndsWith (strToLower name) e)
     | none => false)
    || is_macos_bundle_folder_with_extensions env p defaultBundleExtensions

/-- `FileMonitor::check_if_macos_bundle` (instance variant using the
configured extension list). -/
def check_if_macos_bundle (env : FsEnv) (config : Option AllConfigurations)
    (p : String) : Bool :=
  if p = "" then false
  else is_macos_bundle_folder_with_extensions env p (extract_bundle_extensions config)

/-- `FileMonitor::get_file_metadata` over the abstract filesystem. -/
def get_file_metadata (env : FsEnv) (p : String) : Option FileMetadata :=
  match env.stat p with
  | none => none
  | some st =>
      match pathFileName p with
      | none => none
      | some name =>
          some
            { file_path := p
              file_name := name
              extension := if !st.is_dir then extract_extension p else none
              file_size := if st.is_dir then 0 else st.len
              created_time := st.created
              modified_time := st.modified
              is_dir := st.is_dir
              is_hidden := is_hidden_file p
              hash_value := none
              category_id := none
              labels := none
              initial_rule_matches := none
              extra_metadata := none
              is_os_bundle := some (is_macos_bundle_folder env p) }

/-- The event kinds of `notify::EventKind` as far as the code distinguishes
them (only `Remove(_)` is treated specially). -/
inductive EventKind where
  | Create
  | Modify
  | Remove
  | Other
deriving DecidableEq

/-- The HTTP requests `process_file_event` can issue. -/
inductive ApiRequest where
  | deleteByPath (path : String)
  | fetchConfig
deriving DecidableEq

/-- The shared monitor state read by `process_file_event`: the monitored
directory list, the configuration cache and the blacklist trie. -/
structure MonState where
  monitored_dirs : List MonitoredDirectory
  config_cache : Option AllConfigurations
  blacklist_trie : BlacklistTrieNode

/-- The tilde expansion applied to monitored-directory paths inside
`process_file_event`. -/
def expandTilde (home : Option String) (dirPath : String) : String :=
  if strStartsWith dirPath "~/" then
    match home with
    | some h => strReplace dirPath "~" h
    | none => dirPath
  else dirPath

/-- The monitored-directory re-validation of `process_file_event`: the path
belongs iff some non-blacklist monitored directory's (tilde-expanded) path is
a string prefix of it. -/
def belongs_to_monitored_dir (home : Option String)
    (dirs : List MonitoredDirectory) (pathStr : String) : Bool :=
  dirs.any (fun dir => !dir.is_blacklist
    && strStartsWith pathStr (expandTilde home dir.path))

/-- The tail of `process_file_event` from the `Info.plist` / dot-count bundle
upgrades onward: blacklist check, metadata extraction, bundle marking, hash,
rule pass and the final non-bundle exclusion check. -/
def finishEvent (env : FsEnv) (st : MonState) (config : AllConfigurations)
    (path : String) (is_bundle0 : Bool) : Option FileMetadata :=
  let is_bundle_by_plist :=
    env.pathIsDir path && env.isMacOS && env.contentsInfoPlistExists path
  let is_bundle1 := is_bundle0 || is_bundle_by_plist
  let manyDots := env.pathIsDir path && env.isMacOS && !is_bundle1
      && decide (env.dotEntryCount path > 5)
  let is_bundle2 := is_bundle1 || manyDots
  if st.blacklist_trie.is_path_or_ancestor_blacklisted (pathComponents path) then
    none
  else
    match get_file_metadata env path with
    | none => none
    | some md0 =>
        let md1 :=
          if is_bundle2 || is_bundle_by_plist then { md0 with is_os_bundle := some true }
          else md0
        let md2 :=
          if !md1.is_dir then { md1 with hash_value := env.fileHash path }
          else md1
        let md3 := apply_initial_rules config env.rmatch md2
        if !(md3.is_os_bundle.getD false)
            && (alookup (md3.extra_metadata.getD []) "excluded_by_rule_id").isSome then
          none
        else
          some md3

/-- `FileMonitor::process_file_event` over the abstract filesystem.  The
"event inside a bundle redirects to the bundle root" self-call is modelled
with explicit fuel (the Rust recursion strictly shortens the path string);
exhausted fuel yields `(none, [])`.  The second component is the sequence of
HTTP requests the call issues (delete-by-path, on-demand config fetch). -/
def process_file_event (env : FsEnv) (st : MonState) :
    Nat → String → EventKind → Option FileMetadata × List ApiRequest
  | fuel, path, kind =>
    if kind = EventKind.Remove then
      (none, [ApiRequest.deleteByPath path])
    else if !belongs_to_monitored_dir env.home st.monitored_dirs path then
      (none, [])
    else
      let cfgFetch : Option (AllConfigurations × List ApiRequest) :=
        match st.config_cache with
        | some c => some (c, [])
        | none =>
            match env.fetchedConfig with
            | some c => some (c, [ApiRequest.fetchConfig])
            | none => none
      match cfgFetch with
      | none => (none, [ApiRequest.fetchConfig])
      | some (config, reqs) =>
          if !env.pathExists path then (none, reqs)
          else if is_hidden_file path then (none, reqs)
          else
            let is_bundle0 := check_if_macos_bundle env (some config) path
            let extSkip :=
              if env.pathIsFile path && !is_bundle0 then
                let wl := validExtensions (some config)
                if !wl.isEmpty then
                  match extract_extension path with
                  | some ext => !wl.contains (strToLower ext)
                  | none => env.pathIsFile path
                else false
              else false
            if extSkip then (none, reqs)
            else
              match is_inside_macos_bundle path with
              | some bp =>
                  if !is_bundle0 then
                    match fuel with
                    | 0 => (none, reqs)
                    | n + 1 =>
                        let r := process_file_event env st n bp kind
                        (r.1, reqs ++ r.2)
                  else (finishEvent env st config path is_bundle0, reqs)
              | none => (finishEvent env st config path is_bundle0, reqs)

/-- Blank environment used by witnesses: nothing exists, no configuration. -/
def envEmpty : FsEnv :=
  { pathExists := fun _ => false
    pathIsFile := fun _ => false
    pathIsDir := fun _ => false
    stat := fun _ => none
    dotEntryCount := fun _ => 0
    contentsDirExists := fun _ => false
    contentsInfoPlistExists := fun _ => false
    contentsMacOSExists := fun _ => false
    contentsResourcesExists := fun _ => false
    isMacOS := false
    home := none
    fileHash := fun _ => none
    fetchedConfig := none
    rmatch := fun _ _ => false }

/-- Monitor state with no monitored directories and no cached configuration. -/
def stEmpty : MonState :=
  { monitored_dirs := []
    config_cache := none
    blacklist_trie := BlacklistTrieNode.empty }

-- --- Witness data for C10: a successful concrete run ---

/-- A configuration with one `txt` extension-map entry and no rules. -/
def cfgW : AllConfigurations :=
  { file_categories := []
    file_filter_rules := []
    file_extension_maps := [ { extension := "txt", category_id := 1 } ]
    monitored_folders := []
    full_disk_access := false
    bundle_extensions := [] }

def envW : FsEnv :=
  { envEmpty with
    pathExists := fun p => p == "/mon/a.txt"
    pathIsFile := fun p => p == "/mon/a.txt"
    stat := fun p =>
      if p == "/mon/a.txt" then
        some { is_dir := false, len := 3, created := 0, modified := 0 }
      else none }

def stW : MonState :=
  { monitored_dirs := [ { id := some 1, path := "/mon", «alias» := none, is_blacklist := false } ]
    config_cache := some cfgW
    blacklist_trie := BlacklistTrieNode.empty }

/-- The record produced by the concrete successful run. -/
def mdW : FileMetadata :=
  (process_file_event envW stW 1 "/mon/a.txt" EventKind.Create).1.getD emptyMeta

-- --- OutboundEventCoalescer (`event_buffer.rs`) ---

/-- `BridgeEventData`: symbolic event name plus (JSON) payload. -/
structure BridgeEventData where
  event : String
  payload : JVal
deriving DecidableEq

/-- `BufferedEvent`.  `last_time` is the `Instant` of the last update, in
milliseconds. -/
structure BufferedEvent where
  data : BridgeEventData
  last_time : Nat
  count : Nat
deriving DecidableEq

/-- `EventBuffer::handle_delayed_merge` (lines 186-208): the buffered entry
for the event's name is overwritten with the newest payload and time and its
count is bumped; a missing entry is created.  (The strategy's duration
parameter is ignored by the source, `_duration`, as modelled.) -/
def handle_delayed_merge (buf : List (String × BufferedEvent))
    (ed : BridgeEventData) (now : Nat) : List (String × BufferedEvent) :=
  match alookup buf ed.event with
  | some b => aset buf ed.event { data := ed, last_time := now, count := b.count + 1 }
  | none => aset buf ed.event { data := ed, last_time := now, count := 1 }

/-- The per-name age threshold of the periodic flush task
(`start_flush_task`, lines 282-287), in milliseconds. -/
def sweepWindowMs (name : String) : Nat :=
  if name = "tags-updated" then 5000
  else if name = "database-updated" then 5000
  else if name = "task-completed" then 2000
  else if name = "file-processed" then 2000
  else 1000

/-- `should_send` of one flush-task iteration for one buffered entry. -/
def shouldSendAt (now : Nat) (k : String) (b : BufferedEvent) : Bool :=
  decide (sweepWindowMs k ≤ now - b.last_time)

/-- One pass of the periodic flush task (lines 267-308): entries whose age
reaches their per-name window are removed from the buffer and their data
emitted. -/
def flushSweep (buf : List (String × BufferedEvent)) (now : Nat) :
    List (String × BufferedEvent) × List BridgeEventData :=
  (buf.filter (fun kb => !shouldSendAt now kb.1 kb.2),
   (buf.filter (fun kb => shouldSendAt now kb.1 kb.2)).map (fun kb => kb.2.data))

/-- An observable operation on the delayed-merge buffer: an event arriving
(dispatched by `handle_event` to `handle_delayed_merge`) or one tick of the
flush task. -/
inductive BufOp where
  | arrive (ed : BridgeEventData) (now : Nat)
  | sweep (now : Nat)

/-- Run a sequence of buffer operations, collecting every emitted event in
order. -/
def runBuffer : List (String × BufferedEvent) → List BufOp →
    List (String × BufferedEvent) × List BridgeEventData
  | buf, [] => (buf, [])
  | buf, BufOp.arrive ed t :: rest => runBuffer (handle_delayed_merge buf ed t) rest
  | buf, BufOp.sweep t :: rest =>
      let s := flushSweep buf t
      let r := runBuffer s.1 rest
      (r.1, s.2 ++ r.2)

/-- The buffer's keys are pairwise distinct (the `HashMap` invariant). -/
def keysNodup (buf : List (String × BufferedEvent)) : Prop :=
  (buf.map Prod.fst).Nodup

/-- Every entry is stored under its event's name iff it carries that name —
true of every buffer built by `handle_delayed_merge`, which keys entries by
`event_data.event`. -/
def nameConsistent (N : String) (buf : List (String × BufferedEvent)) : Prop :=
  ∀ kb ∈ buf, kb.1 = N ↔ kb.2.data.event = N

-- --- ConfigChangeQueue replay (`lib.rs`, lines 327-554) ---

/-- `ConfigChangeRequest` (`lib.rs` lines 625-651). -/
inductive ConfigChangeRequest where
  | AddBlacklist (parent_id : Int) (folder_path : String) (folder_alias : Option String)
  | DeleteFolder (folder_id : Int) (folder_path : String) (is_blacklist : Bool)
  | AddWhitelist (folder_path : String) (folder_alias : Option String)
  | ToggleFolder (folder_id : Int) (is_blacklist : Bool) (folder_path : String)
  | BundleExtensionChange
deriving DecidableEq

/-- The externally observable side effects of replaying requests:
`cleanup_screening_data_for_path` (a `/screening/clean-by-path` purge) and
`scan_single_directory` (the incremental single-directory scan). -/
inductive SideCall where
  | cleanByPath (path : String)
  | scanDirectory (path : String)
deriving DecidableEq

/-- Outcome of each attempted side effect (per path and attempt index). -/
structure ChangeEnv where
  cleanupOk : String → Nat → Bool
  scanOk : String → Bool

/-- The 3-attempt cleanup retry loop of `execute_single_config_change`
(`while retry_count < max_retries { cleanup_screening_data_for_path … }`):
returns the success flag and the clean-by-path calls issued, in order. -/
def cleanupFrom (env : ChangeEnv) (p : String) (retryCount : Nat) :
    Bool × List SideCall :=
  if h : retryCount < 3 then
    if env.cleanupOk p retryCount then (true, [SideCall.cleanByPath p])
    else
      let r := cleanupFrom env p (retryCount + 1)
      (r.1, SideCall.cleanByPath p :: r.2)
  else (false, [])
termination_by 3 - retryCount

/-- `AppState::execute_single_config_change`: per request kind, the success
flag and the side-effect calls issued.  `DeleteFolder` purges only when the
deleted folder `is_blacklist`; `AddBlacklist` always purges (with retry);
`ToggleFolder` to blacklist issues a single cleanup attempt (the `?`
operator, no retry loop); `AddWhitelist` and `ToggleFolder` to whitelist run
the incremental single-directory scan; `BundleExtensionChange` only logs. -/
def execute_single_config_change (env : ChangeEnv) :
    ConfigChangeRequest → Bool × List SideCall
  | .DeleteFolder _ p bl =>
      if bl then cleanupFrom env p 0 else (true, [])
  | .AddBlacklist _ p _ => cleanupFrom env p 0
  | .ToggleFolder _ bl p =>
      if bl then (env.cleanupOk p 0, [SideCall.cleanByPath p])
      else (env.scanOk p, [SideCall.scanDirectory p])
  | .AddWhitelist p _ => (env.scanOk p, [SideCall.scanDirectory p])
  | .BundleExtensionChange => (true, [])

/-- The replay loop of `execute_config_changes`: every queued request is
executed in queue order; failures are recorded but never stop the loop.  The
result is the concatenation of all side-effect calls. -/
def execute_config_changes (env : ChangeEnv) (changes : List ConfigChangeRequest) :
    List SideCall :=
  (changes.map (fun c => (execute_single_config_change env c).2)).flatten

/-- Environment in which every external call succeeds. -/
def envCE : ChangeEnv := { cleanupOk := fun _ _ => true, scanOk := fun _ => true }

/-- Claim-side description of the side effects one request kind must trigger,
corrected by the `DeleteFolder` blacklist guard the code actually has. -/
def requiredCalls : ConfigChangeRequest → List SideCall
  | .AddBlacklist _ p _ => [SideCall.cleanByPath p]
  | .DeleteFolder _ p bl => if bl then [SideCall.cleanByPath p] else []
  | .ToggleFolder _ bl p =>
      if bl then [SideCall.cleanByPath p] else [SideCall.scanDirectory p]
  | .AddWhitelist p _ => [SideCall.scanDirectory p]
  | .BundleExtensionChange => []

-- --- C9: configuration refresh vs. concurrent readers ---
-- `fetch_and_store_all_config` replaces the cached snapshot, the derived
-- monitored/blacklist directory lists and the rebuilt blacklist trie, holding
-- the config/dirs mutexes throughout and storing the trie through a separate
-- mutex.  Readers, however, take one mutex per read: `get_monitored_dirs`
-- locks only `monitored_dirs`, `is_in_blacklist` locks only `blacklist_trie`.
-- The model below is lock-level: each reader read is one atomic step, and the
-- whole writer — generously — is a single indivisible step replacing both
-- structures at once.  Even under this best case the claimed atomicity fails
-- for a reader whose two reads straddle a refresh.

/-- An atomic step: a reader locks the dirs mutex and reads the
monitored-directory list; a reader locks the trie mutex and reads the
blacklist trie; or `fetch_and_store_all_config` installs snapshot `n`. -/
inductive CfgAction where
  | readDirs
  | readTrie
  | swapAll (n : Nat)
deriving DecidableEq

/-- Which configuration snapshot each shared structure was derived from. -/
structure CfgState where
  dirsFrom : Nat
  trieFrom : Nat
deriving DecidableEq

def cfgStep (s : CfgState) : CfgAction → CfgState
  | .readDirs => s
  | .readTrie => s
  | .swapAll n => { dirsFrom := n, trieFrom := n }

/-- Final state after a sequence of actions. -/
def cfgRun (s : CfgState) : List CfgAction → CfgState
  | [] => s
  | a :: rest => cfgRun (cfgStep s a) rest

/-- A reader observation: the snapshot index of the structure read. -/
inductive CfgObs where
  | dirs (n : Nat)
  | trie (n : Nat)
deriving DecidableEq

/-- The observations produced along a run. -/
def cfgTrace (s : CfgState) : List CfgAction → List CfgObs
  | [] => []
  | CfgAction.readDirs :: rest => CfgObs.dirs s.dirsFrom :: cfgTrace s rest
  | CfgAction.readTrie :: rest => CfgObs.trie s.trieFrom :: cfgTrace s rest
  | CfgAction.swapAll n :: rest => cfgTrace { dirsFrom := n, trieFrom := n } rest



theorem alookup_aset_self {α : Type} (l : List (String × α)) (k : String) (v : α) :
    alookup (aset l k v) k = some v := by
  induction l with
  | nil => simp [aset, alookup]
  | cons kv rest ih =>
      obtain ⟨k0, v0⟩ := kv
      by_cases h0 : k0 = k
      · simp [aset, alookup, h0]
      · simp [aset, alookup, h0, ih]

theorem alookup_aset_ne {α : Type} (l : List (String × α)) (k k' : String) (v : α)
    (h : k ≠ k') : alookup (aset l k v) k' = alookup l k' := by
  induction l with
  | nil => simp [aset, alookup, h]
  | cons kv rest ih =>
      obtain ⟨k0, v0⟩ := kv
      by_cases h0 : k0 = k
      · subst h0; simp [aset, alookup, h, Ne.symm h]
      · by_cases h1 : k0 = k'
        · subst h1; simp [aset, alookup, h0, Ne.symm h, alookup]
        · simp [aset, alookup, h0, h1, ih]

theorem BlacklistTrieNode.marked_insert (t : BlacklistTrieNode) (b : List String) :
    (t.insert b).marked = (b.isEmpty || t.marked) := by
  cases t with
  | node ch m => cases b <;> simp [BlacklistTrieNode.insert, BlacklistTrieNode.marked]

theorem BlacklistTrieNode.walk_empty (p : List String) :
    BlacklistTrieNode.empty.walk p = false := by
  cases p <;> simp [BlacklistTrieNode.walk, BlacklistTrieNode.empty,
    BlacklistTrieNode.children, alookup]

theorem BlacklistTrieNode.walk_insert (b : List String) :
    ∀ (t : BlacklistTrieNode) (p : List String),
      (t.insert b).walk p = (t.walk p || (!b.isEmpty && b.isPrefixOf p)) := by
  induction b with
  | nil =>
      intro t p
      cases t with
      | node ch m => cases p <;> simp [BlacklistTrieNode.insert, BlacklistTrieNode.walk,
          BlacklistTrieNode.children]
  | cons c rest ih =>
      intro t p
      cases t with
      | node ch m =>
        cases p with
        | nil => simp [BlacklistTrieNode.insert, BlacklistTrieNode.walk, List.isPrefixOf]
        | cons d ds =>
          by_cases hdc : c = d
          · subst hdc
            have hstep : (BlacklistTrieNode.node
                (aset ch c (((alookup ch c).getD BlacklistTrieNode.empty).insert rest))
                m).walk (c :: ds)
                = ((((alookup ch c).getD BlacklistTrieNode.empty).insert rest).marked
                  || (((alookup ch c).getD BlacklistTrieNode.empty).insert rest).walk ds) := by
              simp [BlacklistTrieNode.walk, BlacklistTrieNode.children, alookup_aset_self]
            rw [BlacklistTrieNode.insert, hstep, BlacklistTrieNode.marked_insert, ih]
            cases hb : alookup ch c with
            | none =>
                have hwalk : (BlacklistTrieNode.node ch m).walk (c :: ds) = false := by
                  simp [BlacklistTrieNode.walk, BlacklistTrieNode.children, hb]
                rw [hwalk, Option.getD_none, BlacklistTrieNode.walk_empty]
                have hm : BlacklistTrieNode.empty.marked = false := rfl
                rw [hm]
                cases rest with
                | nil => simp [List.isPrefixOf]
                | cons r rs => simp [List.isPrefixOf]
            | some u =>
                have hwalk : (BlacklistTrieNode.node ch m).walk (c :: ds)
                    = (u.marked || u.walk ds) := by
                  simp [BlacklistTrieNode.walk, BlacklistTrieNode.children, hb]
                rw [hwalk, Option.getD_some]
                cases rest with
                | nil =>
                    have hcc : (c == c) = true := by simp
                    simp only [List.isEmpty_nil, Bool.true_or, Bool.not_true,
                      Bool.false_and, Bool.or_false, List.isEmpty_cons, Bool.not_false,
                      Bool.true_and, List.isPrefixOf, List.isPrefixOf_nil_left, hcc,
                      Bool.and_true, Bool.true_or, Bool.or_true]
                | cons r rs =>
                    simp only [List.isEmpty_cons, Bool.false_or, Bool.not_false,
                      Bool.true_and, List.isPrefixOf]
                    have hcc : (c == c) = true := by simp
                    rw [hcc]
                    cases u.marked <;> cases u.walk ds <;>
                      cases (r :: rs).isPrefixOf ds <;> rfl
          · have hne : (c :: rest).isPrefixOf (d :: ds) = false := by
              simp [List.isPrefixOf, hdc]
            have hstep : ∀ w : BlacklistTrieNode,
                (BlacklistTrieNode.node (aset ch c w) m).walk (d :: ds)
                  = (BlacklistTrieNode.node ch m).walk (d :: ds) := by
              intro w
              simp [BlacklistTrieNode.walk, BlacklistTrieNode.children,
                alookup_aset_ne _ _ _ _ hdc]
            rw [BlacklistTrieNode.insert, hstep, hne]
            simp

theorem BlacklistTrieNode.check_insert (t : BlacklistTrieNode) (b p : List String) :
    (t.insert b).is_path_or_ancestor_blacklisted p
      = (t.is_path_or_ancestor_blacklisted p || b.isPrefixOf p) := by
  rw [BlacklistTrieNode.is_path_or_ancestor_blacklisted,
    BlacklistTrieNode.is_path_or_ancestor_blacklisted,
    BlacklistTrieNode.marked_insert, BlacklistTrieNode.walk_insert]
  cases b with
  | nil => simp [List.isPrefixOf]
  | cons c rest =>
      simp only [List.isEmpty_cons, Bool.false_or, Bool.not_false, Bool.true_and]
      cases t.marked <;> cases t.walk p <;> cases (c :: rest).isPrefixOf p <;> rfl

theorem buildTrie_check (B : List (List String)) (p : List String) :
    ∀ t : BlacklistTrieNode,
      ((B.foldl BlacklistTrieNode.insert t).is_path_or_ancestor_blacklisted p)
        = (t.is_path_or_ancestor_blacklisted p || B.any (·.isPrefixOf p)) := by
  induction B with
  | nil => intro t; simp
  | cons b rest ih =>
      intro t
      simp only [List.foldl_cons, List.any_cons, ih, BlacklistTrieNode.check_insert,
        Bool.or_assoc]

/-- **C1.** For every blacklist set `B` inserted into the trie and every path
`P` (as component lists, with `[]` standing for the root path `/`),
`is_path_or_ancestor_blacklisted P` is true iff some component-wise prefix of
`P` (including `P` itself) was inserted; in particular, after inserting
`/a/b` the check is true for `/a/b/c/d`, false for `/a/bc` and false for
`/a`, and if the root path `/` was inserted every path is blacklisted. -/
theorem C1_blacklist_trie_prefix_iff :
    (∀ (B : List (List String)) (P : List String),
      (buildTrie B).is_path_or_ancestor_blacklisted P = true
        ↔ ∃ b ∈ B, b.isPrefixOf P = true) ∧
    (buildTrie [["a", "b"]]).is_path_or_ancestor_blacklisted ["a", "b", "c", "d"] = true ∧
    (buildTrie [["a", "b"]]).is_path_or_ancestor_blacklisted ["a", "bc"] = false ∧
    (buildTrie [["a", "b"]]).is_path_or_ancestor_blacklisted ["a"] = false ∧
    (∀ P : List String, (buildTrie [[]]).is_path_or_ancestor_blacklisted P = true) := by
  refine ⟨?_, by decide, by decide, by decide, ?_⟩
  · intro B P
    rw [buildTrie, buildTrie_check]
    rw [BlacklistTrieNode.is_path_or_ancestor_blacklisted, BlacklistTrieNode.walk_empty]
    simp [BlacklistTrieNode.empty, BlacklistTrieNode.marked, List.any_eq_true]
  · intro P
    rw [buildTrie, buildTrie_check]
    rw [BlacklistTrieNode.is_path_or_ancestor_blacklisted, BlacklistTrieNode.walk_empty]
    simp [List.isPrefixOf]

-- --- Lemmas about the rule loop ---

theorem alookup_nil {α : Type} (k : String) : alookup ([] : List (String × α)) k = none := rfl

/-- A generic preservation principle for the filter-rule fold. -/
theorem foldl_applyRule_preserve (rm : Rmatch) (fn : String) (ext : Option String)
    (P : RuleState → Prop)
    (hstep : ∀ st r, P st → P (applyRule rm fn ext st r)) :
    ∀ (rules : List FileFilterRuleRust) (st : RuleState),
      P st → P (rules.foldl (applyRule rm fn ext) st) := by
  intro rules
  induction rules with
  | nil => intro st h; exact h
  | cons r rs ih => intro st h; exact ih _ (hstep st r h)

theorem applyRule_bundle_excl (rm : Rmatch) (fn : String) (ext : Option String)
    (st : RuleState) (r : FileFilterRuleRust)
    (hb : st.is_bundle = true)
    (hx : alookup st.extra "excluded_by_rule_id" = none) :
    (applyRule rm fn ext st r).is_bundle = true ∧
      alookup (applyRule rm fn ext st r).extra "excluded_by_rule_id" = none := by
  have hx1 : ∀ (l : List (String × JVal)) (i : Int) (n : String),
      alookup l "excluded_by_rule_id" = none →
      alookup (aset (aset (aset l "macos_bundle_rule_id" (JVal.num i))
        "macos_bundle_rule_name" (JVal.str n)) "is_macos_bundle" (JVal.bool true))
        "excluded_by_rule_id" = none := by
    intro l i n h
    rw [alookup_aset_ne _ _ _ _ (by decide), alookup_aset_ne _ _ _ _ (by decide),
      alookup_aset_ne _ _ _ _ (by decide), h]
  unfold applyRule
  cases he : r.enabled <;>
    cases hmt : matchesRule rm fn ext r <;>
      cases hos : r.rule_type <;>
        cases ha : r.action <;>
          cases hc : r.category_id <;>
            simp_all

theorem applyRule_extMapPhase_excl (cfg : AllConfigurations) (m : FileMetadata)
    (hh : m.is_hidden = false) :
    alookup (extMapPhase cfg m (hiddenExtra m)).2.2 "excluded_by_rule_id" = none := by
  have h0 : hiddenExtra m = [] := by simp [hiddenExtra, hh]
  rw [h0]
  unfold extMapPhase
  cases hx : m.extension with
  | none => rfl
  | some ext =>
      cases hf : cfg.file_extension_maps.find? (fun em => em.extension = ext) with
      | none =>
          simp only [hf]
          rw [alookup_aset_ne _ _ _ _ (by decide), alookup_nil]
      | some em =>
          simp only [hf]
          rw [alookup_aset_ne _ _ _ _ (by decide),
            alookup_aset_ne _ _ _ _ (by decide), alookup_nil]

/-- **C2 (counterexample).** With an `Exclude` filename rule declared before a
matching `OSBundle` rule, the record `myapp.app` ends the rule pass with
`is_os_bundle = true` *and* carries the exclusion marker attached by the
`Exclude` rule (id 1): the claimed order-independence fails. -/
theorem C2_counterexample :
    (apply_initial_rules cfgC2 rmSub mC2).is_os_bundle = some true ∧
    alookup ((apply_initial_rules cfgC2 rmSub mC2).extra_metadata.getD [])
      "excluded_by_rule_id" = some (JVal.num 1) := by
  constructor <;> decide

/-- **C2 (amended).** A record that enters the rule pass already flagged as a
bundle (`is_os_bundle = some true`), is not hidden, and carries no pre-existing
exclusion marker, never acquires an `excluded_by_rule_id` marker from
`apply_initial_rules`, for every configuration and regex oracle: `Exclude`
rules are suppressed while the bundle flag is set, and the flag is never
cleared.  (The counterexample shows this immunity is *not* order-independent
for records whose bundle flag is only established by an `OSBundle` rule later
in the table.) -/
theorem C2_bundle_records_never_excluded
    (cfg : AllConfigurations) (rm : Rmatch) (m : FileMetadata)
    (hb : m.is_os_bundle = some true)
    (hh : m.is_hidden = false)
    (hx : alookup (m.extra_metadata.getD []) "excluded_by_rule_id" = none) :
    alookup ((apply_initial_rules cfg rm m).extra_metadata.getD [])
      "excluded_by_rule_id" = none := by
  unfold apply_initial_rules
  set fn := strToLower m.file_name
  set st0 : RuleState :=
    { category_id := (extMapPhase cfg m (hiddenExtra m)).1
      labels := (extMapPhase cfg m (hiddenExtra m)).2.1
      rule_matches := m.initial_rule_matches.getD []
      is_bundle := m.is_os_bundle.getD false
      extra := (extMapPhase cfg m (hiddenExtra m)).2.2 } with hst0
  have h0 : st0.is_bundle = true ∧ alookup st0.extra "excluded_by_rule_id" = none := by
    constructor
    · rw [hst0]; simp [hb]
    · rw [hst0]; exact applyRule_extMapPhase_excl cfg m hh
  have hfold := foldl_applyRule_preserve rm fn m.extension
    (fun st => st.is_bundle = true ∧ alookup st.extra "excluded_by_rule_id" = none)
    (fun st r hp => applyRule_bundle_excl rm fn m.extension st r hp.1 hp.2)
    cfg.file_filter_rules st0 h0
  set stF := cfg.file_filter_rules.foldl (applyRule rm fn m.extension) st0 with hstF
  by_cases hemp : stF.extra.isEmpty
  · simp only [hemp, if_true, ite_true]
    exact hx
  · simp only [hemp, if_false, ite_false, Option.getD_some]
    exact hfold.2

/-- Witness for `C2_bundle_records_never_excluded` at the concrete bundle
record `mC2bundle` under `cfgC2`. -/
theorem C2_bundle_records_never_excluded_witness :
    alookup ((apply_initial_rules cfgC2 rmSub mC2bundle).extra_metadata.getD [])
      "excluded_by_rule_id" = none :=
  C2_bundle_records_never_excluded cfgC2 rmSub mC2bundle rfl rfl rfl

-- --- C3: determinism / idempotence of the rule pass ---

/-- **C3 (counterexample).** `apply_initial_rules` is not idempotent: on a
plain `a.txt` record under a one-entry extension map, a second run appends a
second copy of the `ext:txt` label (the `ext:` push at lines 1010-1016 has no
duplicate guard), so running twice differs from running once. -/
theorem C3_counterexample :
    apply_initial_rules cfgC3 rmSub (apply_initial_rules cfgC3 rmSub mC3)
      ≠ apply_initial_rules cfgC3 rmSub mC3 := by
  decide

theorem pushLabelIfAbsent_nodup (l : List String) (x : String) (h : l.Nodup) :
    (pushLabelIfAbsent l x).Nodup := by
  cases hc : l.contains x with
  | true =>
      have hx : x ∈ l := by simpa using hc
      simp [pushLabelIfAbsent, hx, h]
  | false =>
      have hx : x ∉ l := by simpa using hc
      simp [pushLabelIfAbsent, hc, List.nodup_append, h, hx]

theorem applyRule_labels_nodup (rm : Rmatch) (fn : String) (ext : Option String)
    (st : RuleState) (r : FileFilterRuleRust)
    (h : (st.labels.getD []).Nodup) :
    ((applyRule rm fn ext st r).labels.getD []).Nodup := by
  unfold applyRule
  cases he : r.enabled <;>
    cases hmt : matchesRule rm fn ext r <;>
      cases hos : r.rule_type <;>
        cases ha : r.action <;>
          cases hc : r.category_id <;>
            cases hlv : r.label_value <;>
              cases hbnd : st.is_bundle <;>
                simp_all [pushLabelIfAbsent_nodup]

theorem foldl_applyRule_labels_nodup (rm : Rmatch) (fn : String) (ext : Option String)
    (rules : List FileFilterRuleRust) (st : RuleState)
    (h : (st.labels.getD []).Nodup) :
    (((rules.foldl (applyRule rm fn ext) st).labels).getD []).Nodup :=
  foldl_applyRule_preserve rm fn ext (fun st => ((st.labels).getD []).Nodup)
    (fun st r hp => applyRule_labels_nodup rm fn ext st r hp) rules st h

/-- **C3 (amended).** The rule pass is a pure function of (configuration,
regex-oracle, record) — determinism holds trivially — but it is *not*
idempotent (see the counterexample).  What does hold of a single run: if the
input record's labels are duplicate-free and do not already contain its
`ext:<extension>` label, then the output labels are duplicate-free (every
rule-driven label push is guarded by a `contains` check, and the one unguarded
push — the `ext:` label — is fresh by hypothesis). -/
theorem C3_single_run_labels_nodup
    (cfg : AllConfigurations) (rm : Rmatch) (m : FileMetadata)
    (h1 : (m.labels.getD []).Nodup)
    (h2 : ∀ e, m.extension = some e → ("ext:" ++ e) ∉ m.labels.getD []) :
    ((apply_initial_rules cfg rm m).labels.getD []).Nodup := by
  unfold apply_initial_rules
  simp only
  apply foldl_applyRule_labels_nodup
  unfold extMapPhase
  cases hx : m.extension with
  | none => simpa using h1
  | some e =>
      have hne : ("ext:" ++ e) ∉ m.labels.getD [] := h2 e hx
      cases hf : cfg.file_extension_maps.find? (fun em => em.extension = e) <;>
        simp_all [List.nodup_append]

/-- Witness for `C3_single_run_labels_nodup` at the concrete record `mC3`
under `cfgC3`. -/
theorem C3_single_run_labels_nodup_witness :
    ((apply_initial_rules cfgC3 rmSub mC3).labels.getD []).Nodup :=
  C3_single_run_labels_nodup cfgC3 rmSub mC3 (by decide)
    (by intro e he; simp [mC3, emptyMeta] at he; simp [mC3, emptyMeta, he])

theorem applyRule_category (rm : Rmatch) (fn : String) (ext : Option String)
    (st : RuleState) (r : FileFilterRuleRust) :
    (applyRule rm fn ext st r).category_id =
      if r.enabled && matchesRule rm fn ext r then
        (match r.category_id with
         | some c => some c
         | none => st.category_id)
      else st.category_id := by
  unfold applyRule
  cases he : r.enabled <;>
    cases hmt : matchesRule rm fn ext r <;>
      cases hos : r.rule_type <;>
        cases ha : r.action <;>
          cases hc : r.category_id <;>
            cases hbnd : st.is_bundle <;>
              simp_all

theorem lastOr_cons (c : Int) (l : List Int) (d : Option Int) :
    lastOr (c :: l) d = lastOr l (some c) := by
  cases l with
  | nil => simp [lastOr]
  | cons x xs =>
      simp only [lastOr, List.getLast?_cons_cons]
      cases hg : (x :: xs).getLast? with
      | some y => rfl
      | none => simp at hg

theorem foldl_applyRule_category (rm : Rmatch) (fn : String) (ext : Option String) :
    ∀ (rules : List FileFilterRuleRust) (st : RuleState),
      (rules.foldl (applyRule rm fn ext) st).category_id =
        lastOr ((rules.filter (fun r => r.enabled && matchesRule rm fn ext r)).filterMap
          (fun r => r.category_id)) st.category_id := by
  intro rules
  induction rules with
  | nil => intro st; simp [lastOr]
  | cons r rs ih =>
      intro st
      simp only [List.foldl_cons, ih, List.filter_cons]
      cases hcond : (r.enabled && matchesRule rm fn ext r) with
      | false => simp [applyRule_category, hcond]
      | true =>
          cases hc : r.category_id with
          | none => simp [applyRule_category, hcond, hc, List.filterMap_cons]
          | some c => simp [applyRule_category, hcond, hc, List.filterMap_cons, lastOr_cons]

theorem applyRule_labels_mem (rm : Rmatch) (fn : String) (ext : Option String)
    (st : RuleState) (r : FileFilterRuleRust) (x : String)
    (h : x ∈ st.labels.getD []) :
    x ∈ (applyRule rm fn ext st r).labels.getD [] := by
  have hp : ∀ (l : List String) (y : String), x ∈ l → x ∈ pushLabelIfAbsent l y := by
    intro l y hx
    unfold pushLabelIfAbsent
    split
    · exact hx
    · exact List.mem_append_left _ hx
  unfold applyRule
  cases he : r.enabled <;>
    cases hmt : matchesRule rm fn ext r <;>
      cases hos : r.rule_type <;>
        cases ha : r.action <;>
          cases hc : r.category_id <;>
            cases hlv : r.label_value <;>
              cases hbnd : st.is_bundle <;>
                simp_all

/-- **C7.** For every record carrying an extension `e`: the first extension-map
entry (in stored table order) whose extension equals `e` provides the
category, the `ext:e` label is present in the output, and any matched enabled
filter rule carrying a `category_id` overrides the extension-map category with
the *last* matching rule winning — i.e. the final category is the last element
of `matchedCategoryIds`, falling back to the first-match extension-map
category. -/
theorem C7_extension_classification
    (cfg : AllConfigurations) (rm : Rmatch) (m : FileMetadata) (e : String)
    (he : m.extension = some e) :
    (apply_initial_rules cfg rm m).category_id =
      lastOr (matchedCategoryIds cfg rm m) (extMapCategory cfg m e) ∧
    ("ext:" ++ e) ∈ (apply_initial_rules cfg rm m).labels.getD [] := by
  unfold apply_initial_rules
  simp only
  constructor
  · rw [foldl_applyRule_category]
    unfold matchedCategoryIds
    congr 1
    unfold extMapPhase extMapCategory
    rw [he]
    cases hf : cfg.file_extension_maps.find? (fun em => em.extension = e) <;> simp [hf]
  · apply foldl_applyRule_preserve rm (strToLower m.file_name) m.extension
      (fun st => ("ext:" ++ e) ∈ st.labels.getD [])
      (fun st r hp => applyRule_labels_mem rm (strToLower m.file_name) m.extension st r _ hp)
    unfold extMapPhase
    rw [he]
    cases hf : cfg.file_extension_maps.find? (fun em => em.extension = e) <;> simp [hf]

/-- Witness for `C7_extension_classification` at the concrete record `mC3`
under `cfgC3`. -/
theorem C7_extension_classification_witness :
    (apply_initial_rules cfgC3 rmSub mC3).category_id
        = lastOr (matchedCategoryIds cfgC3 rmSub mC3) (extMapCategory cfgC3 mC3 "txt") ∧
      ("ext:" ++ "txt") ∈ (apply_initial_rules cfgC3 rmSub mC3).labels.getD [] :=
  C7_extension_classification cfgC3 rmSub mC3 "txt" rfl

/-- **C4.** The batch accumulator never forwards directories, hidden records,
records carrying the `excluded_by_rule_id` marker, `.DS_Store`-named records,
or (when the extension whitelist is non-empty) non-directory records whose
extension is absent from the whitelist — except that bundle-flagged records
are exempt from the extension-whitelist check and are forwarded regardless of
extension (provided they pass the remaining checks): the code-side filter
equals the claim-side characterisation on every configuration and record. -/
theorem C4_batch_filter (config : Option AllConfigurations) (m : FileMetadata) :
    batchAccepts config m = batchAcceptsSpec config m := by
  unfold batchAccepts batchAcceptsSpec
  cases hh : m.is_hidden <;>
    cases hx : hasExclusionMarker m <;>
      cases hd : m.is_dir <;>
        cases hb : m.is_os_bundle.getD false <;>
          cases hds : strContains m.file_name ".DS_Store" <;>
            cases hwl : (validExtensions config).isEmpty <;>
              cases hext : m.extension <;>
                simp_all

-- --- C5: Remove events and unmonitored paths ---

/-- **C5.** For every path, a `Remove`-kind event makes `process_file_event`
issue exactly one delete-by-path request and return no metadata; and for any
non-`Remove` event whose path does not lie under a currently-monitored
non-blacklisted directory, it returns no metadata and issues no request. -/
theorem C5_remove_and_unmonitored :
    (∀ (env : FsEnv) (st : MonState) (fuel : Nat) (path : String),
      process_file_event env st fuel path EventKind.Remove
        = (none, [ApiRequest.deleteByPath path])) ∧
    (∀ (env : FsEnv) (st : MonState) (fuel : Nat) (path : String) (kind : EventKind),
      kind ≠ EventKind.Remove →
      belongs_to_monitored_dir env.home st.monitored_dirs path = false →
      process_file_event env st fuel path kind = (none, [])) := by
  constructor
  · intro env st fuel path
    rw [process_file_event]
    simp
  · intro env st fuel path kind hk hb
    rw [process_file_event]
    simp [hk, hb]

/-- Witness for `C5_remove_and_unmonitored` at concrete inputs. -/
theorem C5_remove_and_unmonitored_witness :
    EventKind.Create ≠ EventKind.Remove ∧
    belongs_to_monitored_dir envEmpty.home stEmpty.monitored_dirs "/a/b.txt" = false ∧
    process_file_event envEmpty stEmpty 0 "/a/b.txt" EventKind.Remove
        = (none, [ApiRequest.deleteByPath "/a/b.txt"]) ∧
    process_file_event envEmpty stEmpty 0 "/a/b.txt" EventKind.Create = (none, []) :=
  ⟨by decide, by decide,
    C5_remove_and_unmonitored.1 envEmpty stEmpty 0 "/a/b.txt",
    C5_remove_and_unmonitored.2 envEmpty stEmpty 0 "/a/b.txt" EventKind.Create
      (by decide) (by decide)⟩

-- --- C10: output invariant of the shared processing routine ---

theorem apply_initial_rules_is_hidden (cfg : AllConfigurations) (rm : Rmatch)
    (m : FileMetadata) : (apply_initial_rules cfg rm m).is_hidden = m.is_hidden := rfl

theorem get_file_metadata_is_hidden (env : FsEnv) (p : String) (md : FileMetadata)
    (h : get_file_metadata env p = some md) : md.is_hidden = is_hidden_file p := by
  unfold get_file_metadata at h
  cases hs : env.stat p with
  | none => rw [hs] at h; exact absurd h (by simp)
  | some stv =>
      rw [hs] at h
      cases hf : pathFileName p with
      | none => rw [hf] at h; exact absurd h (by simp)
      | some name =>
          rw [hf] at h
          simp only [Option.some.injEq] at h
          rw [← h]

theorem ruleTail_invariant (config : AllConfigurations) (rm : Rmatch)
    (m2 : FileMetadata) (md : FileMetadata)
    (h : (if !((apply_initial_rules config rm m2).is_os_bundle.getD false)
            && (alookup ((apply_initial_rules config rm m2).extra_metadata.getD [])
                "excluded_by_rule_id").isSome
          then none else some (apply_initial_rules config rm m2)) = some md) :
    md.is_hidden = m2.is_hidden ∧
      (md.is_os_bundle.getD false = false →
        alookup (md.extra_metadata.getD []) "excluded_by_rule_id" = none) := by
  split at h
  · exact absurd h (by simp)
  · rename_i hguard
    simp only [Option.some.injEq] at h
    subst h
    refine ⟨apply_initial_rules_is_hidden config rm m2, ?_⟩
    intro hb
    rw [Bool.not_eq_true] at hguard
    rw [hb] at hguard
    simp only [Bool.not_false, Bool.true_and] at hguard
    exact Option.not_isSome_iff_eq_none.mp
      (by rw [hguard]; exact Bool.false_ne_true)

theorem finishEvent_invariant (env : FsEnv) (st : MonState)
    (config : AllConfigurations) (path : String) (b0 : Bool) (md : FileMetadata)
    (h : finishEvent env st config path b0 = some md) :
    md.is_hidden = is_hidden_file path ∧
      (md.is_os_bundle.getD false = false →
        alookup (md.extra_metadata.getD []) "excluded_by_rule_id" = none) := by
  have hHash : ∀ (m1 : FileMetadata),
      (if !m1.is_dir then { m1 with hash_value := env.fileHash path }
       else m1).is_hidden = m1.is_hidden := by
    intro m1; split <;> rfl
  have hMark : ∀ (c : Bool) (m0 : FileMetadata),
      (if c then { m0 with is_os_bundle := some true } else m0).is_hidden
        = m0.is_hidden := by
    intro c m0; split <;> rfl
  unfold finishEvent at h
  by_cases hbl :
      st.blacklist_trie.is_path_or_ancestor_blacklisted (pathComponents path) = true
  · rw [if_pos hbl] at h; exact absurd h (by simp)
  · rw [if_neg hbl] at h
    cases hmd : get_file_metadata env path with
    | none => rw [hmd] at h; exact absurd h (by simp)
    | some md0 =>
        rw [hmd] at h
        simp only at h
        obtain ⟨hh, hex⟩ := ruleTail_invariant config env.rmatch _ md h
        refine ⟨?_, hex⟩
        rw [hh, hHash, hMark]
        exact get_file_metadata_is_hidden env path md0 hmd


theorem none_pair_ne_some (x y : List ApiRequest) (md : FileMetadata)
    (h : ((none : Option FileMetadata), x) = (some md, y)) : False := by
  simp at h

theorem pair_fst_some (p : Option FileMetadata × List ApiRequest) (md : FileMetadata)
    (h : p.1 = some md) : p = (some md, p.2) := by
  obtain ⟨a, b⟩ := p
  simp_all

/-- **C10.** Whenever `process_file_event` returns `some metadata` (for any
event kind — in particular `Added`-kind events), the returned record has
`is_hidden = false`, and if its `is_os_bundle` flag is not `true` then its
`extra_metadata` carries no `excluded_by_rule_id` marker: hidden paths and
rule-excluded non-bundle records always yield `none`. -/
theorem C10_process_event_output_invariant :
    ∀ (fuel : Nat) (env : FsEnv) (st : MonState) (path : String) (kind : EventKind)
      (md : FileMetadata) (reqs : List ApiRequest),
      process_file_event env st fuel path kind = (some md, reqs) →
      md.is_hidden = false ∧
        (md.is_os_bundle.getD false = false →
          alookup (md.extra_metadata.getD []) "excluded_by_rule_id" = none) := by
  intro fuel
  induction fuel with
  | zero =>
      intro env st path kind md reqs h
      rw [process_file_event] at h
      simp only at h
      repeat' split at h
      all_goals try exact (none_pair_ne_some _ _ _ h).elim
      all_goals rw [Prod.mk.injEq] at h
      all_goals obtain ⟨h1, _⟩ := h
      all_goals obtain ⟨hh, hex⟩ := finishEvent_invariant _ _ _ _ _ _ h1
      all_goals refine ⟨?_, hex⟩
      all_goals rw [hh]
      all_goals simp_all
  | succ n ih =>
      intro env st path kind md reqs h
      rw [process_file_event] at h
      simp only at h
      repeat' split at h
      all_goals try exact (none_pair_ne_some _ _ _ h).elim
      all_goals rw [Prod.mk.injEq] at h
      all_goals obtain ⟨h1, _⟩ := h
      all_goals first
        | exact ih env st _ kind md _ (pair_fst_some _ md h1)
        | (obtain ⟨hh, hex⟩ := finishEvent_invariant _ _ _ _ _ _ h1
           refine ⟨?_, hex⟩
           rw [hh]
           simp_all)

/-- Witness for `C10_process_event_output_invariant` at a concrete event for
`/mon/a.txt` under a monitored `/mon` with a cached configuration. -/
theorem C10_process_event_output_invariant_witness :
    mdW.is_hidden = false ∧
      (mdW.is_os_bundle.getD false = false →
        alookup (mdW.extra_metadata.getD []) "excluded_by_rule_id" = none) :=
  C10_process_event_output_invariant 1 envW stW "/mon/a.txt" EventKind.Create mdW
    (process_file_event envW stW 1 "/mon/a.txt" EventKind.Create).2 (by decide)

theorem mem_aset {α : Type} (l : List (String × α)) (k : String) (v : α) :
    ∀ kb ∈ aset l k v, kb = (k, v) ∨ kb ∈ l := by
  induction l with
  | nil =>
      intro kb h
      simp [aset] at h
      left; exact h
  | cons kv rest ih =>
      intro kb h
      obtain ⟨k0, v0⟩ := kv
      by_cases h0 : k0 = k
      · simp [aset, h0] at h
        rcases h with h | h
        · left; simp [h]
        · right; simp [h]
      · simp [aset, h0] at h
        rcases h with h | h
        · right; simp [h]
        · rcases ih kb h with h1 | h1
          · left; exact h1
          · right; simp [h1]

theorem mem_keys_aset {α : Type} (l : List (String × α)) (k k1 : String) (v : α)
    (h : k1 ∈ (aset l k v).map Prod.fst) : k1 = k ∨ k1 ∈ l.map Prod.fst := by
  rcases List.mem_map.mp h with ⟨kb, hkb, hfst⟩
  rcases mem_aset l k v kb hkb with h1 | h1
  · left; rw [← hfst, h1]
  · right; exact hfst ▸ List.mem_map_of_mem Prod.fst h1

theorem aset_cons_self {α : Type} (k : String) (v0 v : α) (rest : List (String × α)) :
    aset ((k, v0) :: rest) k v = (k, v) :: rest := by simp [aset]

theorem aset_cons_ne {α : Type} (k0 k : String) (v0 v : α) (rest : List (String × α))
    (h : k0 ≠ k) : aset ((k0, v0) :: rest) k v = (k0, v0) :: aset rest k v := by
  simp [aset, h]

theorem alookup_cons_self {α : Type} (k : String) (v0 : α) (rest : List (String × α)) :
    alookup ((k, v0) :: rest) k = some v0 := by simp [alookup]

theorem alookup_cons_ne {α : Type} (k0 k : String) (v0 : α) (rest : List (String × α))
    (h : k0 ≠ k) : alookup ((k0, v0) :: rest) k = alookup rest k := by
  simp [alookup, h]

theorem keys_aset_nodup {α : Type} (l : List (String × α)) (k : String) (v : α)
    (h : (l.map Prod.fst).Nodup) : ((aset l k v).map Prod.fst).Nodup := by
  induction l with
  | nil => simp [aset]
  | cons kv rest ih =>
      obtain ⟨k0, v0⟩ := kv
      rw [List.map_cons, List.nodup_cons] at h
      by_cases h0 : k0 = k
      · subst h0
        rw [aset_cons_self, List.map_cons, List.nodup_cons]
        exact h
      · rw [aset_cons_ne _ _ _ _ _ h0, List.map_cons, List.nodup_cons]
        refine ⟨?_, ih h.2⟩
        intro hmem
        rcases mem_keys_aset rest k k0 v hmem with h1 | h1
        · exact h0 h1
        · exact h.1 h1

theorem alookup_eq_none_of_not_mem_keys {α : Type} (l : List (String × α)) (k : String)
    (h : k ∉ l.map Prod.fst) : alookup l k = none := by
  induction l with
  | nil => rfl
  | cons kv rest ih =>
      obtain ⟨k0, v0⟩ := kv
      simp only [List.map_cons, List.mem_cons, not_or] at h
      simp [alookup, Ne.symm h.1, ih h.2]

theorem alookup_filter_none {α : Type} (q : String × α → Bool) (l : List (String × α))
    (k : String) (h : alookup l k = none) : alookup (l.filter q) k = none := by
  induction l with
  | nil => rfl
  | cons kv rest ih =>
      obtain ⟨k0, v0⟩ := kv
      by_cases h0 : k0 = k
      · subst h0; rw [alookup_cons_self] at h; exact absurd h (by simp)
      · rw [alookup_cons_ne _ _ _ _ h0] at h
        rw [List.filter_cons]
        by_cases hq : q (k0, v0) = true
        · rw [if_pos hq, alookup_cons_ne _ _ _ _ h0]
          exact ih h
        · rw [if_neg hq]
          exact ih h

theorem alookup_filter {α : Type} (q : String × α → Bool) (l : List (String × α))
    (k : String) (v : α) (hnd : (l.map Prod.fst).Nodup) (h : alookup l k = some v) :
    alookup (l.filter q) k = if q (k, v) then some v else none := by
  induction l with
  | nil => simp [alookup] at h
  | cons kv rest ih =>
      obtain ⟨k0, v0⟩ := kv
      rw [List.map_cons, List.nodup_cons] at hnd
      by_cases h0 : k0 = k
      · subst h0
        rw [alookup_cons_self] at h
        injection h with h
        subst h
        rw [List.filter_cons]
        by_cases hq : q (k0, v0) = true
        · rw [if_pos hq, if_pos hq, alookup_cons_self]
        · have hnone : alookup rest k0 = none :=
            alookup_eq_none_of_not_mem_keys rest k0 hnd.1
          rw [if_neg hq, if_neg hq]
          exact alookup_filter_none q rest k0 hnone
      · rw [alookup_cons_ne _ _ _ _ h0] at h
        rw [List.filter_cons]
        by_cases hq : q (k0, v0) = true
        · rw [if_pos hq, alookup_cons_ne _ _ _ _ h0]
          exact ih hnd.2 h
        · rw [if_neg hq]
          exact ih hnd.2 h

theorem nameConsistent_filter (N : String) (q : String × BufferedEvent → Bool)
    (buf : List (String × BufferedEvent)) (h : nameConsistent N buf) :
    nameConsistent N (buf.filter q) :=
  fun kb hkb => h kb (List.mem_of_mem_filter hkb)

theorem keysNodup_filter (q : String × BufferedEvent → Bool)
    (buf : List (String × BufferedEvent)) (h : keysNodup buf) :
    keysNodup (buf.filter q) :=
  List.Nodup.sublist (List.Sublist.map Prod.fst (List.filter_sublist buf)) h

theorem nameConsistent_handle (N : String) (buf : List (String × BufferedEvent))
    (ed : BridgeEventData) (t : Nat) (h : nameConsistent N buf) :
    nameConsistent N (handle_delayed_merge buf ed t) := by
  intro kb hkb
  unfold handle_delayed_merge at hkb
  cases hb : alookup buf ed.event with
  | some b =>
      rw [hb] at hkb
      rcases mem_aset buf ed.event _ kb hkb with h1 | h1
      · subst h1; simp
      · exact h kb h1
  | none =>
      rw [hb] at hkb
      rcases mem_aset buf ed.event _ kb hkb with h1 | h1
      · subst h1; simp
      · exact h kb h1

theorem keysNodup_handle (buf : List (String × BufferedEvent))
    (ed : BridgeEventData) (t : Nat) (h : keysNodup buf) :
    keysNodup (handle_delayed_merge buf ed t) := by
  unfold handle_delayed_merge
  cases hb : alookup buf ed.event <;> exact keys_aset_nodup buf ed.event _ h

theorem alookup_handle (buf : List (String × BufferedEvent))
    (ed : BridgeEventData) (t : Nat) :
    ∃ c, alookup (handle_delayed_merge buf ed t) ed.event
      = some { data := ed, last_time := t, count := c } := by
  unfold handle_delayed_merge
  cases hb : alookup buf ed.event with
  | some b => exact ⟨b.count + 1, alookup_aset_self buf ed.event _⟩
  | none => exact ⟨1, alookup_aset_self buf ed.event _⟩

theorem flushSweep_snd_cons (k : String) (b : BufferedEvent)
    (rest : List (String × BufferedEvent)) (t : Nat) :
    (flushSweep ((k, b) :: rest) t).2
      = (if shouldSendAt t k b = true then b.data :: (flushSweep rest t).2
         else (flushSweep rest t).2) := by
  simp only [flushSweep, List.filter_cons]
  by_cases hs : shouldSendAt t k b = true
  · simp [hs]
  · simp only [Bool.not_eq_true] at hs
    simp [hs]

theorem flushSweep_filter_out (N : String) (t : Nat) :
    ∀ (buf : List (String × BufferedEvent)),
      nameConsistent N buf → keysNodup buf →
      ((flushSweep buf t).2.filter (fun ed => ed.event == N))
        = (match alookup buf N with
           | some b => if shouldSendAt t N b then [b.data] else []
           | none => []) := by
  intro buf
  induction buf with
  | nil => intro _ _; rfl
  | cons kb rest ih =>
      intro hcons hnd
      obtain ⟨k, b⟩ := kb
      have hconsr : nameConsistent N rest :=
        fun x hx => hcons x (List.mem_cons_of_mem _ hx)
      have hndpair : k ∉ rest.map Prod.fst ∧ (rest.map Prod.fst).Nodup := by
        have h0 := hnd
        rw [keysNodup, List.map_cons, List.nodup_cons] at h0
        exact h0
      have hrest := ih hconsr hndpair.2
      rw [flushSweep_snd_cons]
      by_cases hk : k = N
      · subst hk
        have hdataN : b.data.event = k := (hcons (k, b) (by simp)).mp rfl
        have hrestN : alookup rest k = none :=
          alookup_eq_none_of_not_mem_keys rest k hndpair.1
        rw [hrestN] at hrest
        rw [alookup_cons_self]
        by_cases hs : shouldSendAt t k b = true
        · simp [hs, List.filter_cons, hdataN, hrest]
        · simp only [Bool.not_eq_true] at hs
          simp [hs, hrest]
      · have hdata : (b.data.event == N) = false := by
          have : ¬(b.data.event = N) := fun hd => hk ((hcons (k, b) (by simp)).mpr hd)
          simp [this]
        rw [alookup_cons_ne _ _ _ _ hk]
        by_cases hs : shouldSendAt t k b = true
        · rw [if_pos hs, List.filter_cons, hdata]
          simp only [Bool.false_eq_true, if_false]
          exact hrest
        · rw [if_neg hs]
          exact hrest

theorem flushSweep_filter_out_some (N : String) (t : Nat)
    (buf : List (String × BufferedEvent)) (b : BufferedEvent)
    (h1 : nameConsistent N buf) (h2 : keysNodup buf) (h3 : alookup buf N = some b) :
    ((flushSweep buf t).2.filter (fun ed => ed.event == N))
      = if shouldSendAt t N b then [b.data] else [] := by
  have h := flushSweep_filter_out N t buf h1 h2
  rw [h3] at h
  exact h

theorem flushSweep_filter_out_none (N : String) (t : Nat)
    (buf : List (String × BufferedEvent))
    (h1 : nameConsistent N buf) (h2 : keysNodup buf) (h3 : alookup buf N = none) :
    ((flushSweep buf t).2.filter (fun ed => ed.event == N)) = [] := by
  have h := flushSweep_filter_out N t buf h1 h2
  rw [h3] at h
  exact h

theorem runBuffer_append (l1 : List BufOp) :
    ∀ (buf : List (String × BufferedEvent)) (l2 : List BufOp),
      runBuffer buf (l1 ++ l2)
        = ((runBuffer (runBuffer buf l1).1 l2).1,
           (runBuffer buf l1).2 ++ (runBuffer (runBuffer buf l1).1 l2).2) := by
  induction l1 with
  | nil => intro buf l2; simp [runBuffer]
  | cons op rest ih =>
      intro buf l2
      cases op with
      | arrive ed t =>
          simp only [List.cons_append, runBuffer]
          exact ih _ l2
      | sweep t =>
          simp only [List.cons_append, runBuffer]
          rw [List.append_eq, ih]
          simp [List.append_assoc]

theorem flushSweep_fst (buf : List (String × BufferedEvent)) (t : Nat) :
    (flushSweep buf t).1 = buf.filter (fun kb => !shouldSendAt t kb.1 kb.2) := rfl

theorem sweeps_keep (N : String) (b : BufferedEvent) :
    ∀ (mids : List Nat) (buf : List (String × BufferedEvent)),
      nameConsistent N buf → keysNodup buf →
      alookup buf N = some b →
      (∀ s ∈ mids, shouldSendAt s N b = false) →
      nameConsistent N (runBuffer buf (mids.map BufOp.sweep)).1 ∧
      keysNodup (runBuffer buf (mids.map BufOp.sweep)).1 ∧
      alookup (runBuffer buf (mids.map BufOp.sweep)).1 N = some b ∧
      ((runBuffer buf (mids.map BufOp.sweep)).2.filter (fun ed => ed.event == N)) = [] := by
  intro mids
  induction mids with
  | nil => intro buf h1 h2 h3 _; exact ⟨h1, h2, h3, rfl⟩
  | cons s rest ih =>
      intro buf h1 h2 h3 hall
      have hs : shouldSendAt s N b = false := hall s (by simp)
      have hfl1 : alookup (flushSweep buf s).1 N = some b := by
        rw [flushSweep_fst, alookup_filter _ buf N b h2 h3]
        simp [hs]
      have hcons1 : nameConsistent N (flushSweep buf s).1 :=
        nameConsistent_filter N _ buf h1
      have hnd1 : keysNodup (flushSweep buf s).1 :=
        keysNodup_filter _ buf h2
      have hout := flushSweep_filter_out_some N s buf b h1 h2 h3
      rw [hs] at hout
      simp only [Bool.false_eq_true, if_false] at hout
      obtain ⟨i1, i2, i3, i4⟩ :=
        ih (flushSweep buf s).1 hcons1 hnd1 hfl1 (fun u hu => hall u (by simp [hu]))
      refine ⟨?_, ?_, ?_, ?_⟩
      · simpa [runBuffer] using i1
      · simpa [runBuffer] using i2
      · simpa [runBuffer] using i3
      · simp only [List.map_cons, runBuffer, List.filter_append]
        rw [i4]
        simp only [List.append_nil]
        simpa using hout

theorem sweeps_no_entry (N : String) :
    ∀ (us : List Nat) (buf : List (String × BufferedEvent)),
      nameConsistent N buf → keysNodup buf → alookup buf N = none →
      ((runBuffer buf (us.map BufOp.sweep)).2.filter (fun ed => ed.event == N)) = [] := by
  intro us
  induction us with
  | nil => intro buf _ _ _; rfl
  | cons u rest ih =>
      intro buf h1 h2 h3
      have hout := flushSweep_filter_out_none N u buf h1 h2 h3
      have hfl : alookup (flushSweep buf u).1 N = none := by
        rw [flushSweep_fst]
        exact alookup_filter_none _ buf N h3
      simp only [List.map_cons, runBuffer, List.filter_append]
      rw [ih (flushSweep buf u).1 (nameConsistent_filter N _ buf h1)
        (keysNodup_filter _ buf h2) hfl]
      simpa using hout

theorem sweeps_flush_once (N : String) (b : BufferedEvent) :
    ∀ (us : List Nat) (buf : List (String × BufferedEvent)),
      nameConsistent N buf → keysNodup buf → alookup buf N = some b →
      (∃ u ∈ us, shouldSendAt u N b = true) →
      ((runBuffer buf (us.map BufOp.sweep)).2.filter (fun ed => ed.event == N))
        = [b.data] := by
  intro us
  induction us with
  | nil =>
      intro buf _ _ _ hex
      simp at hex
  | cons u rest ih =>
      intro buf h1 h2 h3 hex
      have hout := flushSweep_filter_out_some N u buf b h1 h2 h3
      by_cases hsu : shouldSendAt u N b = true
      · rw [if_pos hsu] at hout
        have hfl : alookup (flushSweep buf u).1 N = none := by
          rw [flushSweep_fst, alookup_filter _ buf N b h2 h3]
          simp [hsu]
        have hrest := sweeps_no_entry N rest (flushSweep buf u).1
          (nameConsistent_filter N _ buf h1) (keysNodup_filter _ buf h2) hfl
        simp only [List.map_cons, runBuffer, List.filter_append]
        rw [hrest]
        simpa using hout
      · simp only [Bool.not_eq_true] at hsu
        rw [hsu] at hout
        simp only [Bool.false_eq_true, if_false] at hout
        have hfl : alookup (flushSweep buf u).1 N = some b := by
          rw [flushSweep_fst, alookup_filter _ buf N b h2 h3]
          simp [hsu]
        have hrest_ex : ∃ u' ∈ rest, shouldSendAt u' N b = true := by
          rcases hex with ⟨u', hu', hsu'⟩
          rcases List.mem_cons.mp hu' with hh | hh
          · subst hh; rw [hsu] at hsu'; exact absurd hsu' (by simp)
          · exact ⟨u', hh, hsu'⟩
        have := ih (flushSweep buf u).1 (nameConsistent_filter N _ buf h1)
          (keysNodup_filter _ buf h2) hfl hrest_ex
        simp only [List.map_cons, runBuffer, List.filter_append]
        rw [this]
        simpa using hout

/-- **C6.** DelayedMerge coalescing: starting from any buffer holding nothing
for `tags-updated`, if `{tags-updated, p1}` arrives at `t1` and
`{tags-updated, p2}` arrives at `t2` within the 5s merge window (with any
flush-task ticks in between, all before `t2`), then any subsequent run of
flush ticks at least one of which falls past `t2 + 5s` forwards exactly one
`tags-updated` event, carrying the later payload `p2` (the buffered entry is
overwritten; only the latest payload survives). -/
theorem C6_delayed_merge_latest_payload
    (buf0 : List (String × BufferedEvent)) (p1 p2 : JVal)
    (t1 t2 : Nat) (mids us : List Nat)
    (hnd : keysNodup buf0)
    (hclean : ∀ kb ∈ buf0, kb.1 ≠ "tags-updated" ∧ kb.2.data.event ≠ "tags-updated")
    (hord : t1 ≤ t2)
    (hwin : t2 < t1 + 5000)
    (hmids : ∀ s ∈ mids, s ≤ t2)
    (hus : ∃ u ∈ us, t2 + 5000 ≤ u) :
    ((runBuffer buf0
        ([BufOp.arrive ⟨"tags-updated", p1⟩ t1] ++ mids.map BufOp.sweep
          ++ [BufOp.arrive ⟨"tags-updated", p2⟩ t2] ++ us.map BufOp.sweep)).2.filter
        (fun ed => ed.event == "tags-updated"))
      = [⟨"tags-updated", p2⟩] := by
  have hw : sweepWindowMs "tags-updated" = 5000 := by simp [sweepWindowMs]
  have hcons0 : nameConsistent "tags-updated" buf0 := by
    intro kb hkb
    have h := hclean kb hkb
    exact ⟨fun hh => absurd hh h.1, fun hh => absurd hh h.2⟩
  obtain ⟨c1, hb1⟩ := alookup_handle buf0 ⟨"tags-updated", p1⟩ t1
  have hcons1 := nameConsistent_handle "tags-updated" buf0 ⟨"tags-updated", p1⟩ t1 hcons0
  have hnd1 := keysNodup_handle buf0 ⟨"tags-updated", p1⟩ t1 hnd
  have hsfalse : ∀ s ∈ mids, shouldSendAt s "tags-updated"
      { data := ⟨"tags-updated", p1⟩, last_time := t1, count := c1 } = false := by
    intro s hs
    have h := hmids s hs
    simp only [shouldSendAt, hw, decide_eq_false_iff_not]
    omega
  obtain ⟨i1, i2, i3, i4⟩ := sweeps_keep "tags-updated" _ mids
    (handle_delayed_merge buf0 ⟨"tags-updated", p1⟩ t1) hcons1 hnd1 hb1 hsfalse
  obtain ⟨c2, hb2⟩ := alookup_handle
    (runBuffer (handle_delayed_merge buf0 ⟨"tags-updated", p1⟩ t1)
      (mids.map BufOp.sweep)).1 ⟨"tags-updated", p2⟩ t2
  have hstrue : ∃ u ∈ us, shouldSendAt u "tags-updated"
      { data := ⟨"tags-updated", p2⟩, last_time := t2, count := c2 } = true := by
    obtain ⟨u, hu, hule⟩ := hus
    refine ⟨u, hu, ?_⟩
    simp only [shouldSendAt, hw, decide_eq_true_eq]
    omega
  have hfin := sweeps_flush_once "tags-updated"
    { data := ⟨"tags-updated", p2⟩, last_time := t2, count := c2 } us _
    (nameConsistent_handle "tags-updated" _ ⟨"tags-updated", p2⟩ t2 i1)
    (keysNodup_handle _ ⟨"tags-updated", p2⟩ t2 i2)
    hb2 hstrue
  have hsplit : ([BufOp.arrive ⟨"tags-updated", p1⟩ t1] ++ mids.map BufOp.sweep
      ++ [BufOp.arrive ⟨"tags-updated", p2⟩ t2] ++ us.map BufOp.sweep)
      = BufOp.arrive ⟨"tags-updated", p1⟩ t1 ::
        (mids.map BufOp.sweep ++ (BufOp.arrive ⟨"tags-updated", p2⟩ t2 ::
          us.map BufOp.sweep)) := by
    simp
  rw [hsplit]
  simp only [runBuffer]
  rw [runBuffer_append (mids.map BufOp.sweep)]
  simp only [runBuffer]
  rw [List.filter_append, i4, List.nil_append]
  exact hfin

/-- Witness for `C6_delayed_merge_latest_payload` at a concrete trace: empty
initial buffer, payloads 1 then 2 at times 0 and 1000, one mid sweep at 500,
final sweeps at 3000 and 6001. -/
theorem C6_delayed_merge_latest_payload_witness :
    ((runBuffer []
        ([BufOp.arrive ⟨"tags-updated", JVal.num 1⟩ 0] ++ [500].map BufOp.sweep
          ++ [BufOp.arrive ⟨"tags-updated", JVal.num 2⟩ 1000]
          ++ [3000, 6001].map BufOp.sweep)).2.filter
        (fun ed => ed.event == "tags-updated"))
      = [⟨"tags-updated", JVal.num 2⟩] :=
  C6_delayed_merge_latest_payload [] (JVal.num 1) (JVal.num 2) 0 1000 [500] [3000, 6001]
    (by simp [keysNodup]) (by simp) (by omega) (by omega)
    (by intro s hs; simp at hs; omega)
    ⟨6001, by simp, by omega⟩

/-- **C8 (counterexample).** Replaying a queued `DeleteFolder` request for a
*non-blacklist* folder issues no purge call at all (the purge in the
`DeleteFolder` arm is guarded by `is_blacklist`), refuting the claim that
every queued `DeleteFolder` triggers a clean-by-path purge. -/
theorem C8_counterexample :
    execute_config_changes envCE [ConfigChangeRequest.DeleteFolder 1 "/docs" false] = []
      ∧ SideCall.cleanByPath "/docs"
          ∉ execute_config_changes envCE [ConfigChangeRequest.DeleteFolder 1 "/docs" false] := by
  constructor
  · rfl
  · intro h
    simp [execute_config_changes, execute_single_config_change] at h

theorem cleanupFrom_mem (env : ChangeEnv) (p : String) :
    SideCall.cleanByPath p ∈ (cleanupFrom env p 0).2 := by
  rw [cleanupFrom]
  simp only [Nat.zero_lt_succ, dif_pos]
  split <;> simp

/-- **C8 (amended).** Replaying any queue of configuration-change requests
issues, for every queued request: a clean-by-path purge of its path for
`AddBlacklist`, `ToggleFolder`-to-blacklist, and `DeleteFolder` *of a
blacklist folder* (a non-blacklist `DeleteFolder` purges nothing — see the
counterexample); and an incremental single-directory scan of its path for
`AddWhitelist` and `ToggleFolder`-to-whitelist.  This holds for every queued
request of each kind and every outcome of the external calls. -/
theorem C8_replay_side_effects (env : ChangeEnv)
    (changes : List ConfigChangeRequest) (c : ConfigChangeRequest)
    (hc : c ∈ changes) :
    ∀ call ∈ requiredCalls c, call ∈ execute_config_changes env changes := by
  intro call hcall
  have hsub : call ∈ (execute_single_config_change env c).2 := by
    cases c with
    | AddBlacklist pid p a =>
        simp only [requiredCalls, List.mem_singleton] at hcall
        subst hcall
        exact cleanupFrom_mem env p
    | DeleteFolder fid p bl =>
        cases bl with
        | false => simp [requiredCalls] at hcall
        | true =>
            simp only [requiredCalls, if_pos, List.mem_singleton] at hcall
            subst hcall
            simp only [execute_single_config_change, if_pos]
            exact cleanupFrom_mem env p
    | AddWhitelist p a =>
        simp only [requiredCalls, List.mem_singleton] at hcall
        subst hcall
        simp [execute_single_config_change]
    | ToggleFolder fid bl p =>
        cases bl with
        | false =>
            simp only [requiredCalls, if_neg] at hcall
            simp only [Bool.false_eq_true, if_false, List.mem_singleton] at hcall
            subst hcall
            simp [execute_single_config_change]
        | true =>
            simp only [requiredCalls, if_pos, List.mem_singleton] at hcall
            subst hcall
            simp [execute_single_config_change]
    | BundleExtensionChange => simp [requiredCalls] at hcall
  exact List.mem_flatten.mpr
    ⟨(execute_single_config_change env c).2, List.mem_map_of_mem _ hc, hsub⟩

/-- Witness for `C8_replay_side_effects`: an `AddBlacklist` for `/b` in a
two-element queue issues its purge call. -/
theorem C8_replay_side_effects_witness :
    SideCall.cleanByPath "/b" ∈ execute_config_changes envCE
      [ConfigChangeRequest.AddBlacklist 1 "/b" none,
       ConfigChangeRequest.AddWhitelist "/w" none] :=
  C8_replay_side_effects envCE
    [ConfigChangeRequest.AddBlacklist 1 "/b" none,
     ConfigChangeRequest.AddWhitelist "/w" none]
    (ConfigChangeRequest.AddBlacklist 1 "/b" none)
    (by simp) (SideCall.cleanByPath "/b") (by simp [requiredCalls])

/-- **C9 (counterexample).** A reader that reads the monitored-directory list,
is interleaved with one configuration refresh (even modelled as a single
indivisible step), and then reads the blacklist trie, observes the directory
list derived from snapshot 0 together with a trie derived from snapshot 1:
the two structures are read under separate lock acquisitions, so the claimed
reader-side atomicity fails. -/
theorem C9_counterexample :
    cfgTrace { dirsFrom := 0, trieFrom := 0 }
        [CfgAction.readDirs, CfgAction.swapAll 1, CfgAction.readTrie]
      = [CfgObs.dirs 0, CfgObs.trie 1] ∧ (0 : Nat) ≠ 1 := by
  constructor
  · rfl
  · decide

theorem cfgRun_append (l1 : List CfgAction) :
    ∀ (s : CfgState) (l2 : List CfgAction),
      cfgRun s (l1 ++ l2) = cfgRun (cfgRun s l1) l2 := by
  induction l1 with
  | nil => intro s l2; rfl
  | cons a rest ih =>
      intro s l2
      simp only [List.cons_append, cfgRun]
      exact ih (cfgStep s a) l2

theorem cfgRun_consistent (l : List CfgAction) :
    ∀ (s : CfgState), s.dirsFrom = s.trieFrom →
      (cfgRun s l).dirsFrom = (cfgRun s l).trieFrom := by
  induction l with
  | nil => intro s h; exact h
  | cons a rest ih =>
      intro s h
      cases a with
      | readDirs => exact ih s h
      | readTrie => exact ih s h
      | swapAll n => exact ih _ rfl

theorem cfgRun_no_swap (l : List CfgAction)
    (hl : ∀ a ∈ l, ∀ n, a ≠ CfgAction.swapAll n) :
    ∀ (s : CfgState), cfgRun s l = s := by
  induction l with
  | nil => intro s; rfl
  | cons a rest ih =>
      intro s
      have hrest : ∀ a ∈ rest, ∀ n, a ≠ CfgAction.swapAll n :=
        fun x hx => hl x (List.mem_cons_of_mem _ hx)
      cases a with
      | readDirs => exact ih hrest s
      | readTrie => exact ih hrest s
      | swapAll n => exact absurd rfl (hl (CfgAction.swapAll n) (by simp) n)

/-- **C9 (amended).** The writer installs the snapshot, both directory lists
and the trie while holding the config/dirs mutexes, so each individual locked
read sees a fully-built structure, and the two structures always agree after
every completed refresh (`cfgRun_consistent`); what holds for a two-read
reader is conditional: if no refresh completes between its two lock
acquisitions, the monitored-directory list it read and the blacklist trie it
read derive from the same snapshot.  (When a refresh does intervene, the
counterexample shows a mixed observation.) -/
theorem C9_reader_consistency_without_interleaved_refresh
    (pre mid : List CfgAction)
    (hmid : ∀ a ∈ mid, ∀ n, a ≠ CfgAction.swapAll n) :
    (cfgRun { dirsFrom := 0, trieFrom := 0 } pre).dirsFrom
      = (cfgRun { dirsFrom := 0, trieFrom := 0 }
          (pre ++ CfgAction.readDirs :: mid)).trieFrom := by
  rw [cfgRun_append]
  have h1 : cfgRun (cfgRun { dirsFrom := 0, trieFrom := 0 } pre)
      (CfgAction.readDirs :: mid)
      = cfgRun { dirsFrom := 0, trieFrom := 0 } pre := by
    show cfgRun (cfgStep _ CfgAction.readDirs) mid = _
    rw [cfgStep]
    exact cfgRun_no_swap mid hmid _
  rw [h1]
  exact cfgRun_consistent pre { dirsFrom := 0, trieFrom := 0 } rfl

/-- Witness for `C9_reader_consistency_without_interleaved_refresh`: after a
refresh to snapshot 5, a reader reading dirs then trie with no refresh in
between sees matching snapshots. -/
theorem C9_reader_consistency_witness :
    (cfgRun { dirsFrom := 0, trieFrom := 0 } [CfgAction.swapAll 5]).dirsFrom
      = (cfgRun { dirsFrom := 0, trieFrom := 0 }
          ([CfgAction.swapAll 5] ++ CfgAction.readDirs :: [CfgAction.readTrie])).trieFrom :=
  C9_reader_consistency_without_interleaved_refresh
    [CfgAction.swapAll 5] [CfgAction.readTrie]
    (by intro a ha n; simp at ha; subst ha; simp)

end LeafKnow